import Mathlib

/-!
# Verification of `resumy` (src/resumy/resumy.py)

A shallow embedding of the Python module `resumy.py` into Lean 4.

YAML documents (the Python `Yaml = Dict[str, Any]` values together with the
nested values they contain) are modelled by the inductive type `Yaml` below.
Python exceptions are modelled by the error type `Err` together with
`Except Err`:

* `KeyError k`   — subscripting a dict with a missing key `k`;
* `TypeError`    — subscripting / iterating a value of the wrong shape;
* a `ValueError` raised by `datetime.strptime` is modelled by
  `Err.dateParseError` (the spec's `DateParseError`);
* a `NameError` for an unbound local variable is `Err.nameError`;
* `jsonschema.ValidationError` is `Err.validationError`;
* `IOError` (with its `errno`) is `Err.ioError`;
* `yaml.YAMLError` is `Err.parseError`.

All functions are translated statement by statement from the source, keeping
Python's evaluation order (and hence the order in which exceptions can be
raised) and Python's dict insertion order (dicts are association lists).
-/

set_option autoImplicit false

namespace Resumy

/-- A YAML value, as produced by `yaml.safe_load`: strings, integers,
booleans, null, sequences and (insertion-ordered) mappings. -/
inductive Yaml where
  | str : String → Yaml
  | int : Int → Yaml
  | bool : Bool → Yaml
  | null : Yaml
  | list : List Yaml → Yaml
  | map : List (String × Yaml) → Yaml
deriving Repr

/-- Errors: the Python exceptions the module can raise. -/
inductive Err where
  | keyError : String → Err
  | typeError : Err
  | dateParseError : String → Err
  | nameError : String → Err
  | validationError : Err
  | ioError : Int → Err
  | parseError : Err
deriving Repr, DecidableEq

/-- First-match lookup in an association list (Python dict subscript). -/
def lookupKV : List (String × Yaml) → String → Option Yaml
  | [], _ => none
  | (k, v) :: rest, key => if k = key then some v else lookupKV rest key

/-- Update an existing key in place, or append a fresh one: the semantics of
Python's `d[k] = v` on an insertion-ordered dict. -/
def setKV : List (String × Yaml) → String → Yaml → List (String × Yaml)
  | [], key, v => [(key, v)]
  | (k, w) :: rest, key, v =>
      if k = key then (k, v) :: rest else (k, w) :: setKV rest key v

namespace Yaml

/-- `d.find k`: the value at key `k` if `d` is a mapping containing it. -/
def find : Yaml → String → Option Yaml
  | .map kvs, k => lookupKV kvs k
  | _, _ => none

/-- Python `k in d` for a mapping `d` (key membership). -/
def hasKey (y : Yaml) (k : String) : Bool :=
  (y.find k).isSome

/-- Python `d[k]`: `KeyError` if the key is missing, `TypeError` if `d` is
not a mapping. -/
def getKey : Yaml → String → Except Err Yaml
  | .map kvs, k =>
      match lookupKV kvs k with
      | some v => .ok v
      | none => .error (.keyError k)
  | _, _ => .error .typeError

/-- Python `d.get(k, default)` on a mapping. -/
def getD : Yaml → String → Yaml → Except Err Yaml
  | .map kvs, k, dflt =>
      match lookupKV kvs k with
      | some v => .ok v
      | none => .ok dflt
  | _, _, _ => .error .typeError

/-- Python truthiness of a YAML value (`if config['skills']:` …). -/
def truthy : Yaml → Bool
  | .str s => s ≠ ""
  | .int n => n ≠ 0
  | .bool b => b
  | .null => false
  | .list l => ¬ l.isEmpty
  | .map m => ¬ m.isEmpty

/-- Python `str()` of a scalar, as interpolated by an f-string. -/
def asStr : Yaml → String
  | .str s => s
  | .int n => toString n
  | .bool b => if b then "True" else "False"
  | .null => "None"
  | .list _ => "[...]"
  | .map _ => "{...}"

/-- Iterating a value with `for x in v`: the module only ever iterates
sequences; anything else is modelled as a `TypeError`. -/
def asList : Yaml → Except Err (List Yaml)
  | .list l => .ok l
  | _ => .error .typeError

end Yaml

/-- Left-to-right effectful map over a sequence, aborting at the first
raised exception: the semantics of a Python `for` loop (or comprehension)
whose body appends to a fresh list. -/
def mapME {α β : Type} (f : α → Except Err β) : List α → Except Err (List β)
  | [] => .ok []
  | x :: xs => do
      let y ← f x
      let ys ← mapME f xs
      pure (y :: ys)

/-- ASCII lower-casing of one character (the month abbreviations
`strptime` matches are ASCII). -/
def lowerChar (c : Char) : Char :=
  match c with
  | 'A' => 'a' | 'B' => 'b' | 'C' => 'c' | 'D' => 'd' | 'E' => 'e'
  | 'F' => 'f' | 'G' => 'g' | 'H' => 'h' | 'I' => 'i' | 'J' => 'j'
  | 'K' => 'k' | 'L' => 'l' | 'M' => 'm' | 'N' => 'n' | 'O' => 'o'
  | 'P' => 'p' | 'Q' => 'q' | 'R' => 'r' | 'S' => 's' | 'T' => 't'
  | 'U' => 'u' | 'V' => 'v' | 'W' => 'w' | 'X' => 'x' | 'Y' => 'y'
  | 'Z' => 'z' | other => other

/-- ASCII lower-casing of a string (`_strptime` lower-cases both the input
and the month names before matching). -/
def lowerStr (s : String) : String := ⟨s.data.map lowerChar⟩

/-- Zero-based position of a string in a list, or `none`. -/
def idxOf (s : String) : List String → Option Nat
  | [] => none
  | m :: rest => if m = s then some 0 else (idxOf s rest).map (· + 1)

/-- The month abbreviations accepted by `datetime.strptime(_, '%b')`
(matched case-insensitively). -/
def monthAbbrevs : List String :=
  ["jan", "feb", "mar", "apr", "may", "jun",
   "jul", "aug", "sep", "oct", "nov", "dec"]

/-- `datetime.strptime(s, '%b')`, restricted to the month it produces:
the 1-based month number, or a `DateParseError` (Python `ValueError`) on an
unrecognized abbreviation. -/
def strptimeMonth (s : String) : Except Err Nat :=
  match idxOf (lowerStr s) monthAbbrevs with
  | some i => .ok (i + 1)
  | none => .error (.dateParseError s)

/-- `'%m'` rendering: a zero-padded two-digit month. -/
def fmtMonth (n : Nat) : String :=
  if n < 10 then "0" ++ toString n else toString n

/-- `get_month_from` (resumy.py:107-110): `"01"` if the date mapping has no
`month` key, otherwise the zero-padded numeric month parsed from the
three-letter abbreviation. -/
def get_month_from (date : Yaml) : Except Err String :=
  match date with
  | .map kvs =>
      match lookupKV kvs "month" with
      | some (.str s) => do
          let n ← strptimeMonth s
          pure (fmtMonth n)
      | some _ => .error .typeError
      | none => .ok "01"
  | _ => .error .typeError

/-- The Github profile entry (resumy.py:133-137). -/
def githubEntry (username : Yaml) : Yaml :=
  .map [("network", .str "Github"),
        ("username", username),
        ("url", .str ("https://github.com/" ++ username.asStr))]

/-- The Linkedin profile entry (resumy.py:139-143). -/
def linkedinEntry (username : Yaml) : Yaml :=
  .map [("network", .str "Linkedin"),
        ("username", username),
        ("url", .str ("https://www.linkedin.com/" ++ username.asStr))]

/-- The `basics` object built from the legacy `profile` section
(resumy.py:115-143): name/email/phone/url, then the optional `location`
object, then the Github/Linkedin profile entries (in that order). -/
def mkBasics (profile : Yaml) : Except Err Yaml := do
  let firstname ← profile.getKey "firstname"
  let lastname ← profile.getKey "lastname"
  let email ← profile.getKey "email"
  let phone ← profile.getKey "phone"
  let portfolio ← profile.getKey "portfolio_url"
  let city ← profile.getKey "city"
  let country ← profile.getKey "country"
  let github ← profile.getKey "github_username"
  let linkedin ← profile.getKey "linkedin_username"
  let profiles : List Yaml :=
    (if github.truthy then [githubEntry github] else []) ++
    (if linkedin.truthy then [linkedinEntry linkedin] else [])
  let base : List (String × Yaml) :=
    [("name", .str (firstname.asStr ++ " " ++ lastname.asStr)),
     ("email", email),
     ("phone", phone),
     ("url", portfolio),
     ("profiles", .list profiles)]
  let loc : List (String × Yaml) :=
    if city.truthy || country.truthy then
      [("location", .map [("city", city), ("countryCode", country)])]
    else []
  pure (.map (base ++ loc))

/-- One entry of the canonical `skills` list (resumy.py:148-152). -/
def skillCatEntry (skillcat : Yaml) : Except Err Yaml := do
  let title ← skillcat.getKey "title"
  let content ← skillcat.getKey "content"
  let items ← content.asList
  let names ← mapME (fun skill => skill.getKey "name") items
  pure (.map [("name", title), ("keywords", .list names)])

/-- One entry of the canonical `work` list (resumy.py:157-168): the loop
body over `config['job_experience']['content']`. -/
def workEntry (work : Yaml) : Except Err Yaml := do
  let fromDate ← work.getKey "from"
  let fromMonth ← get_month_from fromDate
  let company ← work.getKey "company_name"
  let title ← work.getKey "title"
  let fromYear ← fromDate.getKey "year"
  let descr ← work.getKey "description"
  let base : List (String × Yaml) :=
    [("name", company),
     ("position", title),
     ("startDate", .str (fromYear.asStr ++ "-" ++ fromMonth ++ "-01")),
     ("highlights", descr)]
  if ¬ work.hasKey "present" ∧ work.hasKey "to" then do
    let toDate ← work.getKey "to"
    let toMonth ← get_month_from toDate
    let toYear ← toDate.getKey "year"
    pure (.map (base ++ [("endDate", .str (toYear.asStr ++ "-" ++ toMonth ++ "-01"))]))
  else
    pure (.map base)

/-- The work loop (resumy.py:157-168), left to right; on success also the
value the Python loop variable `work` is left bound to (the last legacy
entry), which the education loop reads. -/
def transformWorkList : List Yaml → Except Err (List Yaml)
  | [] => .ok []
  | w :: ws => do
      let nw ← workEntry w
      let rest ← transformWorkList ws
      pure (nw :: rest)

/-- The fields of one canonical `education` entry that the loop body builds
into `new_edu` (resumy.py:174-179). -/
def eduEntryBase (edu : Yaml) : Except Err Yaml := do
  let fromDate ← edu.getKey "from"
  let fromMonth ← get_month_from fromDate
  let company ← edu.getKey "company_name"
  let title ← edu.getKey "title"
  let fromYear ← edu.getKey "from"
  let year ← fromYear.getKey "year"
  pure (.map [("institution", company),
              ("area", title),
              ("startDate", .str (year.asStr ++ "-" ++ fromMonth ++ "-01"))])

/-- The `endDate` string the education loop body computes from `edu['to']`
(resumy.py:181-182). -/
def eduEndDate (edu : Yaml) : Except Err String := do
  let toDate ← edu.getKey "to"
  let toMonth ← get_month_from toDate
  let toYear ← toDate.getKey "year"
  pure (toYear.asStr ++ "-" ++ toMonth ++ "-01")

/-- Reading the leaked loop variable `work` at resumy.py:180: a `NameError`
when the job-experience loop never ran. -/
def eduLastWork : Option Yaml → Except Err Yaml
  | some w => .ok w
  | none => .error (.nameError "work")

/-- The education loop (resumy.py:173-183).  `lastWork` is the value of the
Python variable `work` left over from the job-experience loop (`none` when
that loop never ran, in which case line 180 raises a `NameError`).  Because
of the copy-paste bug at lines 180-182 the loop body never writes into
`new_edu`: when the *last legacy work entry* has no `present` key it instead
assigns `new_work['endDate']` — mutating the last canonical work entry —
from `edu['to']`.  On success the returned `Option String` is the last such
assignment (later iterations overwrite earlier ones). -/
def transformEduList (lastWork : Option Yaml) :
    List Yaml → Except Err (List Yaml × Option String)
  | [] => .ok ([], none)
  | e :: es => do
      let ne ← eduEntryBase e
      let w ← eduLastWork lastWork
      if w.hasKey "present" then do
        let (rest, patch) ← transformEduList lastWork es
        pure (ne :: rest, patch)
      else do
        let d ← eduEndDate e
        let (rest, patch) ← transformEduList lastWork es
        pure (ne :: rest, some (patch.getD d))

/-- Apply the education loop's `new_work['endDate'] = …` assignment: it
updates the last element of `new_config['work']` (the dict `new_work` still
refers to). -/
def patchLastEndDate : List Yaml → String → List Yaml
  | [], _ => []
  | [w], d =>
      match w with
      | .map kvs => [.map (setKV kvs "endDate" (.str d))]
      | other => [other]
  | w :: y :: rest, d => w :: patchLastEndDate (y :: rest) d

/-- One entry of the canonical `projects` list (resumy.py:188-197). -/
def projectEntry (project : Yaml) : Except Err Yaml := do
  let name ← project.getKey "name"
  let descr ← project.getD "description" (.str "")
  let skills ← project.getKey "skills"
  let items ← skills.asList
  let names ← mapME (fun skill => skill.getKey "name") items
  let base : List (String × Yaml) :=
    [("name", name), ("description", descr), ("keywords", .list names)]
  if project.hasKey "url" then do
    let url ← project.getKey "url"
    pure (.map (base ++ [("url", url)]))
  else
    pure (.map base)

/-- The skills section (resumy.py:144-152): `none` when
`config['skills']` is falsy (no output key), otherwise the page-break flag
and the canonical skills list. -/
def sectionSkills (skillsSec : Yaml) : Except Err (Option (Bool × List Yaml)) :=
  if skillsSec.truthy then do
    let content ← skillsSec.getKey "content"
    let items ← content.asList
    let out ← mapME skillCatEntry items
    pure (some (skillsSec.hasKey "include_page_break", out))
  else
    pure none

/-- The job-experience section (resumy.py:153-168): the page-break flag,
the canonical work list, and the last legacy entry (the value the loop
variable `work` stays bound to). -/
def sectionWork (jobSec : Yaml) :
    Except Err (Option (Bool × List Yaml × Option Yaml)) :=
  if jobSec.truthy then do
    let content ← jobSec.getKey "content"
    let items ← content.asList
    let out ← transformWorkList items
    pure (some (jobSec.hasKey "include_page_break", out, items.getLast?))
  else
    pure none

/-- The value of the Python variable `work` after the job-experience
section. -/
def lastWorkOf (workPart : Option (Bool × List Yaml × Option Yaml)) :
    Option Yaml :=
  match workPart with
  | some (_, _, lw) => lw
  | none => none

/-- The education section (resumy.py:169-183): the page-break flag, the
canonical education list, and the pending `new_work['endDate']` assignment
produced by the buggy loop body (see `transformEduList`). -/
def sectionEdu (eduSec : Yaml) (lastWork : Option Yaml) :
    Except Err (Option (Bool × List Yaml × Option String)) :=
  if eduSec.truthy then do
    let content ← eduSec.getKey "content"
    let items ← content.asList
    let (out, patch) ← transformEduList lastWork items
    pure (some (eduSec.hasKey "include_page_break", out, patch))
  else
    pure none

/-- The projects section (resumy.py:184-197). -/
def sectionProjects (projSec : Yaml) : Except Err (Option (Bool × List Yaml)) :=
  if projSec.truthy then do
    let content ← projSec.getKey "content"
    let items ← content.asList
    let out ← mapME projectEntry items
    pure (some (projSec.hasKey "include_page_break", out))
  else
    pure none

/-- The `meta.breaks_before` mapping, keys in Python insertion order. -/
def breaksOf (sk : Option (Bool × List Yaml))
    (wk : Option (Bool × List Yaml × Option Yaml))
    (ed : Option (Bool × List Yaml × Option String))
    (pj : Option (Bool × List Yaml)) : List (String × Yaml) :=
  (match sk with
   | some (true, _) => [("skills", .bool true)] | _ => []) ++
  (match wk with
   | some (true, _, _) => [("work", .bool true)] | _ => []) ++
  (match ed with
   | some (true, _, _) => [("education", .bool true)] | _ => []) ++
  (match pj with
   | some (true, _) => [("projects", .bool true)] | _ => [])

/-- The final `new_config['work']` entry: the canonical work list, with the
education loop's `new_work['endDate']` assignment applied to its last
element when one was produced. -/
def workFinalOf (wk : Option (Bool × List Yaml × Option Yaml))
    (ed : Option (Bool × List Yaml × Option String)) : List (String × Yaml) :=
  match wk with
  | none => []
  | some (_, out, _) =>
      match ed with
      | some (_, _, some d) => [("work", .list (patchLastEndDate out d))]
      | _ => [("work", .list out)]

/-- The returned `new_config`, keys in Python insertion order: `meta`,
`basics`, then each truthy section in source order. -/
def assemble (basics : Yaml) (sk : Option (Bool × List Yaml))
    (wk : Option (Bool × List Yaml × Option Yaml))
    (ed : Option (Bool × List Yaml × Option String))
    (pj : Option (Bool × List Yaml)) : Yaml :=
  .map
    ([("meta", .map [("breaks_before", .map (breaksOf sk wk ed pj))]),
      ("basics", basics)] ++
     (match sk with
      | some (_, out) => [("skills", .list out)] | none => []) ++
     workFinalOf wk ed ++
     (match ed with
      | some (_, out, _) => [("education", .list out)] | none => []) ++
     (match pj with
      | some (_, out) => [("projects", .list out)] | none => []))

/-- `from_resumy_to_jsonschema` (resumy.py:113-198), statement by statement.
A falsy section contributes no key; a truthy section with a missing
`content` key or a malformed entry raises, as does an absent section key.
The education loop reads the leaked loop variables `work` / `new_work` of
the job-experience loop (see `transformEduList`). -/
def from_resumy_to_jsonschema (config : Yaml) : Except Err Yaml := do
  let profile ← config.getKey "profile"
  let basics ← mkBasics profile
  let skillsSec ← config.getKey "skills"
  let sk ← sectionSkills skillsSec
  let jobSec ← config.getKey "job_experience"
  let wk ← sectionWork jobSec
  let eduSec ← config.getKey "education"
  let ed ← sectionEdu eduSec (lastWorkOf wk)
  let projSec ← config.getKey "projects"
  let pj ← sectionProjects projSec
  pure (assemble basics sk wk ed pj)

/-! ## Shape predicates

Decidable well-formedness predicates describing exactly the inputs on which
the transformer cannot raise.  They are read off the field accesses of
`from_resumy_to_jsonschema`. -/

/-- The optional `month` field of a `PartialDate`: absent, or a recognized
abbreviation string. -/
def monthFieldOk : Option Yaml → Bool
  | none => true
  | some (.str s) => (idxOf (lowerStr s) monthAbbrevs).isSome
  | some _ => false

/-- A required field: present and satisfying `pred`. -/
def fieldIs (pred : Yaml → Bool) : Option Yaml → Bool
  | some v => pred v
  | none => false

/-- A `PartialDate` the transformer accepts: a mapping with a `year` key
whose optional `month` is a recognized three-letter abbreviation string. -/
def validPartialDate (d : Yaml) : Bool :=
  match d with
  | .map kvs =>
      (lookupKV kvs "year").isSome && monthFieldOk (lookupKV kvs "month")
  | _ => false

/-- The branch guard of resumy.py:165: the `to` date is only read (and must
then be valid) when `present` is absent and `to` is present. -/
def toFieldOk : Option Yaml → Option Yaml → Bool
  | none, some d => validPartialDate d
  | _, _ => true

/-- A field holding a sequence of mappings that each carry `name`. -/
def namesOk : Option Yaml → Bool
  | some (.list items) => items.all (fun s => (s.find "name").isSome)
  | _ => false

/-- Entries of an optional `content` sequence all satisfy `entryOk`. -/
def optListAll (entryOk : Yaml → Bool) : Option (List Yaml) → Bool
  | some items => items.all entryOk
  | none => false

/-- The `content` sequence of a legacy section mapping, when present. -/
def sectionContent : Yaml → Option (List Yaml)
  | .map kvs =>
      match lookupKV kvs "content" with
      | some (.list items) => some items
      | _ => none
  | _ => none

/-- A legacy `profile` section with every field the transformer reads. -/
def wfProfile (p : Yaml) : Bool :=
  match p with
  | .map kvs =>
      ["firstname", "lastname", "email", "phone", "portfolio_url",
       "city", "country", "github_username", "linkedin_username"].all
        (fun k => (lookupKV kvs k).isSome)
  | _ => false

/-- A legacy skills category: `title`, and a `content` sequence of mappings
each carrying `name`. -/
def wfSkillCat (c : Yaml) : Bool :=
  match c with
  | .map kvs =>
      (lookupKV kvs "title").isSome && namesOk (lookupKV kvs "content")
  | _ => false

/-- A legacy job-experience entry: `from` a valid PartialDate,
`company_name`, `title`, `description`; and, when the `endDate` branch is
taken (`present` absent and `to` present), `to` a valid PartialDate. -/
def wfWorkEntry (w : Yaml) : Bool :=
  match w with
  | .map kvs =>
      fieldIs validPartialDate (lookupKV kvs "from") &&
      (lookupKV kvs "company_name").isSome &&
      (lookupKV kvs "title").isSome &&
      (lookupKV kvs "description").isSome &&
      toFieldOk (lookupKV kvs "present") (lookupKV kvs "to")
  | _ => false

/-- A legacy education entry; `needsTo` records whether the buggy line 180
guard (`'present' not in work`, about the *last job entry*) will force the
body to read this entry's `to` date. -/
def wfEduEntry (needsTo : Bool) (e : Yaml) : Bool :=
  match e with
  | .map kvs =>
      fieldIs validPartialDate (lookupKV kvs "from") &&
      (lookupKV kvs "company_name").isSome &&
      (lookupKV kvs "title").isSome &&
      (if needsTo then fieldIs validPartialDate (lookupKV kvs "to")
       else true)
  | _ => false

/-- A legacy project entry: `name`, and a `skills` sequence of mappings
each carrying `name` (`description` and `url` are optional). -/
def wfProjectEntry (p : Yaml) : Bool :=
  match p with
  | .map kvs =>
      (lookupKV kvs "name").isSome && namesOk (lookupKV kvs "skills")
  | _ => false

/-- A legacy section value: either falsy (skipped) or a mapping with a
`content` sequence of entries satisfying `entryOk`. -/
def wfSection (entryOk : Yaml → Bool) (s : Yaml) : Bool :=
  if s.truthy then optListAll entryOk (sectionContent s) else true

/-- The last entry of a legacy section's `content` sequence. -/
def lastFromSection : Option Yaml → Option Yaml
  | some s =>
      if s.truthy then
        match s.find "content" with
        | some (.list items) => items.getLast?
        | _ => none
      else none
  | none => none

/-- The last entry of the legacy `job_experience.content` sequence — the
value the Python loop variable `work` is left bound to. -/
def lastLegacyWork (config : Yaml) : Option Yaml :=
  lastFromSection (config.find "job_experience")

/-- Constraints on the education entries arising from the leaked `work`
variable: if the job loop never ran, any education entry raises a
`NameError`, so there must be none; otherwise each entry needs a `to` date
exactly when the *last job entry* has no `present` key. -/
def eduItemsOk (config : Yaml) (items : List Yaml) : Bool :=
  match lastLegacyWork config with
  | none => items.isEmpty
  | some w => items.all (wfEduEntry (! w.hasKey "present"))

/-- The optional education `content`, checked by `eduItemsOk`. -/
def optEduOk (config : Yaml) : Option (List Yaml) → Bool
  | some items => eduItemsOk config items
  | none => false

/-- The education section: falsy, or a mapping whose `content` entries
satisfy the leaked-variable constraints. -/
def wfEducationSection (config : Yaml) (s : Yaml) : Bool :=
  if s.truthy then optEduOk config (sectionContent s) else true

/-- The inputs on which `from_resumy_to_jsonschema` returns without
raising: a mapping whose `profile` has every read field, whose four section
keys are all *present*, and whose truthy sections have well-formed
entries. -/
def wfConfig (config : Yaml) : Bool :=
  match config with
  | .map kvs =>
      (match lookupKV kvs "profile" with
       | some p => wfProfile p
       | none => false) &&
      (match lookupKV kvs "skills" with
       | some s => wfSection wfSkillCat s
       | none => false) &&
      (match lookupKV kvs "job_experience" with
       | some s => wfSection wfWorkEntry s
       | none => false) &&
      (match lookupKV kvs "education" with
       | some s => wfEducationSection config s
       | none => false) &&
      (match lookupKV kvs "projects" with
       | some s => wfSection wfProjectEntry s
       | none => false)
  | _ => false

/-! ## Accessors used to state properties of documents -/

/-- The `content` entries of a legacy top-level section, `[]` when the
section or its `content` sequence is missing. -/
def sectionEntries (config : Yaml) (name : String) : List Yaml :=
  match (config.find name).bind (fun s => s.find "content") with
  | some (.list items) => items
  | _ => []

/-- The entries of a canonical top-level section, `[]` when missing. -/
def outSection (out : Yaml) (name : String) : List Yaml :=
  match out.find name with
  | some (.list items) => items
  | _ => []

/-! ## Metadata normalization and command handlers -/

/-- The `argparse.Namespace` fields that `normalize_args` reads or writes.
`none` models an unset (`None`) flag. -/
structure Args where
  auto_metadata : Bool
  title : Option String
  author : Option String
  keyword : List String
  created_date : Option String
  modified_date : Option String
  output : String
deriving Repr, DecidableEq

/-- Python falsiness of an optional string flag (`not args.title`):
unset (`None`) and the empty string are both falsy. -/
def optFalsy : Option String → Bool
  | none => true
  | some s => s = ""

/-- The ambient facts `normalize_args` consults: the current date rendered
with `DATE_FORMAT`, and the creation time of the output file (`none` when
`os.stat` raises `FileNotFoundError`). -/
structure MetaEnv where
  now : String
  statCtime : Option String

/-- The author default (resumy.py:99-100): when `args.author` is falsy it is
composed from `config['profile']['firstname' / 'lastname']`, which can
raise a `KeyError`. -/
def defaultAuthor (a : Args) (config : Yaml) : Except Err Args :=
  if optFalsy a.author then do
    let profile ← config.getKey "profile"
    let firstname ← profile.getKey "firstname"
    let lastname ← profile.getKey "lastname"
    pure { a with author := some (firstname.asStr ++ " " ++ lastname.asStr) }
  else pure a

/-- `normalize_args` (resumy.py:85-104), statement by statement.  Only the
`auto_metadata` branch writes anything. -/
def normalize_args (env : MetaEnv) (args : Args) (config : Yaml) :
    Except Err Args :=
  if args.auto_metadata then do
    let a := if optFalsy args.title then { args with title := some args.output } else args
    let a := if optFalsy a.created_date then
        { a with created_date := some (env.statCtime.getD env.now) }
      else a
    let a := if optFalsy a.modified_date then { a with modified_date := some env.now } else a
    let a ← defaultAuthor a config
    let a := if a.keyword.length = 0 then { a with keyword := ["resume"] } else a
    pure a
  else
    pure args

/-- The legacy-dialect detection `'version' in config and config['version']
== '0.0.1'` (resumy.py:216): Python `==` against a string literal is `True`
only for an equal string. -/
def isLegacyVersion (config : Yaml) : Bool :=
  config.hasKey "version" &&
    (match config.find "version" with
     | some (.str s) => s == "0.0.1"
     | _ => false)

/-- `cmd_build` (resumy.py:201-236).  The collaborators that perform I/O are
parameters: `loadConfig` (the outcome of `load_yaml(args.config_path)`),
`validateConfig` (of `validate_config`), `createResume` (of
`create_resume`).  A handler returning `.ok n` exited with code `n`; an
`.error e` is an exception escaping the handler uncaught. -/
def cmd_build (loadConfig : Except Err Yaml)
    (validateConfig : Yaml → Except Err Unit)
    (disable_validation : Bool)
    (env : MetaEnv) (args : Args)
    (createResume : Yaml → Except Err Unit) : Except Err Int :=
  match (do
      let config ← loadConfig
      if disable_validation then pure config
      else do
        validateConfig config
        pure config) with
  | .error .validationError => .ok 2
  | .error (.ioError n) => .ok n
  | .error e => .error e
  | .ok config =>
      match normalize_args env args config with
      | .error e => .error e
      | .ok _ =>
          match (if isLegacyVersion config
                 then from_resumy_to_jsonschema config
                 else .ok config) with
          | .error e => .error e
          | .ok finalConfig =>
              match createResume finalConfig with
              | .ok _ => .ok 0
              | .error (.ioError n) => .ok n
              | .error e => .error e

/-- `cmd_validate` (resumy.py:239-249): only `ValidationError` is caught. -/
def cmd_validate (loadConfig : Except Err Yaml)
    (validateConfig : Yaml → Except Err Unit) : Except Err Int :=
  match (do
      let config ← loadConfig
      validateConfig config) with
  | .ok _ => .ok 0
  | .error .validationError => .ok 2
  | .error e => .error e

/-- `cmd_init` (resumy.py:252-256): `shutil.copyfile` runs bare. -/
def cmd_init (copyFile : Except Err Unit) : Except Err Int :=
  match copyFile with
  | .ok _ => .ok 0
  | .error e => .error e

/-- `cmd_theme` (resumy.py:259-263): `shutil.copytree` runs bare. -/
def cmd_theme (copyTree : Except Err Unit) : Except Err Int :=
  match copyTree with
  | .ok _ => .ok 0
  | .error e => .error e

/-- `cmd_normalize` (resumy.py:266-279): only `ValidationError` is caught;
the transform and the output write run bare. -/
def cmd_normalize (loadConfig : Except Err Yaml)
    (validateConfig : Yaml → Except Err Unit)
    (writeOutput : Yaml → Except Err Unit) : Except Err Int :=
  match (do
      let config ← loadConfig
      validateConfig config
      pure config) with
  | .error .validationError => .ok 2
  | .error e => .error e
  | .ok config =>
      match from_resumy_to_jsonschema config with
      | .error e => .error e
      | .ok newConfig =>
          match writeOutput newConfig with
          | .ok _ => .ok 0
          | .error e => .error e

/-! ## Concrete example documents -/

/-- A complete legacy `profile` section. -/
def exampleProfile : Yaml := .map [
  ("firstname", .str "Ada"), ("lastname", .str "Lovelace"),
  ("email", .str "ada@example.org"), ("phone", .str "123"),
  ("portfolio_url", .str "https://ada.dev"),
  ("city", .str "London"), ("country", .str "UK"),
  ("github_username", .str "ada"), ("linkedin_username", .str "")]

/-- A legacy document whose optional sections are all present but falsy. -/
def exampleMinimalConfig : Yaml := .map [
  ("profile", exampleProfile),
  ("skills", .null), ("job_experience", .null),
  ("education", .null), ("projects", .null)]

/-- A legacy document conforming to the spec's dialect — the optional
sections are simply absent — on which the transformer nonetheless raises. -/
def exampleNoSectionKeys : Yaml := .map [("profile", exampleProfile)]

/-- As `exampleNoSectionKeys` but with `skills` present (and falsy): the
next absent section key is the one that raises. -/
def exampleOnlySkillsKey : Yaml := .map [
  ("profile", exampleProfile), ("skills", .null)]

/-- A legacy document with one job entry (carrying a `to` date) and one
education entry: exercises the leaked `new_work` mutation of
resumy.py:180-182. -/
def exampleEduPatch : Yaml := .map [
  ("profile", exampleProfile),
  ("skills", .null),
  ("job_experience", .map [("content", .list [
     .map [("company_name", .str "Acme"), ("title", .str "Engineer"),
           ("from", .map [("year", .int 2020), ("month", .str "Mar")]),
           ("to", .map [("year", .int 2021)]),
           ("description", .list [.str "Built things"])]])]),
  ("education", .map [("content", .list [
     .map [("company_name", .str "Uni"), ("title", .str "CS"),
           ("from", .map [("year", .int 2010)]),
           ("to", .map [("year", .int 2014)])]])]),
  ("projects", .null)]

/-- `exampleEduPatch` with the education section made falsy, to observe the
work entry's own `endDate`. -/
def exampleEduPatchNoEdu : Yaml := .map [
  ("profile", exampleProfile),
  ("skills", .null),
  ("job_experience", .map [("content", .list [
     .map [("company_name", .str "Acme"), ("title", .str "Engineer"),
           ("from", .map [("year", .int 2020), ("month", .str "Mar")]),
           ("to", .map [("year", .int 2021)]),
           ("description", .list [.str "Built things"])]])]),
  ("education", .null),
  ("projects", .null)]

/-- The skills section of the spec's round-trip scenario. -/
def exampleSkillsSection : Yaml :=
  .map [("content", .list [
    .map [("title", .str "Languages"),
          ("content", .list [.map [("name", .str "Go")],
                             .map [("name", .str "Rust")]])]])]

/-- `exampleMinimalConfig` extended with the round-trip skills section. -/
def exampleSkillsConfig : Yaml := .map [
  ("profile", exampleProfile),
  ("skills", exampleSkillsSection),
  ("job_experience", .null), ("education", .null), ("projects", .null)]

/-- The canonical `basics` produced from `exampleProfile`. -/
def exampleBasicsOut : Yaml :=
  .map [("name", .str "Ada Lovelace"),
        ("email", .str "ada@example.org"),
        ("phone", .str "123"),
        ("url", .str "https://ada.dev"),
        ("profiles", .list [.map
          [("network", .str "Github"),
           ("username", .str "ada"),
           ("url", .str "https://github.com/ada")]]),
        ("location", .map [("city", .str "London"),
                           ("countryCode", .str "UK")])]

/-- The canonical document produced from `exampleMinimalConfig`. -/
def exampleMinimalOut : Yaml :=
  .map [("meta", .map [("breaks_before", .map [])]),
        ("basics", exampleBasicsOut)]

/-- The canonical document produced from `exampleSkillsConfig`. -/
def exampleSkillsOut : Yaml :=
  .map [("meta", .map [("breaks_before", .map [])]),
        ("basics", exampleBasicsOut),
        ("skills", .list [.map
          [("name", .str "Languages"),
           ("keywords", .list [.str "Go", .str "Rust"])]])]

/-- A legacy document whose single job entry carries a `present` marker
(and a `to` date), with one education entry. -/
def exampleC3Config : Yaml := .map [
  ("profile", exampleProfile),
  ("skills", .null),
  ("job_experience", .map [("content", .list [
     .map [("company_name", .str "Acme"), ("title", .str "Engineer"),
           ("from", .map [("year", .int 2020), ("month", .str "Mar")]),
           ("present", .bool true),
           ("to", .map [("year", .int 2021)]),
           ("description", .list [.str "Built things"])]])]),
  ("education", .map [("content", .list [
     .map [("company_name", .str "Uni"), ("title", .str "CS"),
           ("from", .map [("year", .int 2010)])]])]),
  ("projects", .null)]

/-- The canonical document produced from `exampleC3Config`. -/
def exampleC3Out : Yaml :=
  .map [("meta", .map [("breaks_before", .map [])]),
        ("basics", exampleBasicsOut),
        ("work", .list [.map
          [("name", .str "Acme"),
           ("position", .str "Engineer"),
           ("startDate", .str "2020-03-01"),
           ("highlights", .list [.str "Built things"])]]),
        ("education", .list [.map
          [("institution", .str "Uni"),
           ("area", .str "CS"),
           ("startDate", .str "2010-01-01")]])]

/-! ## A heap embedding of the transformer, for the mutation discipline

The pure embedding above cannot even express mutation of the input
document, so the transformer's frame property — it never mutates its input
— is settled against a second, heap-based embedding of the same source
lines.  Python objects live in a heap (a list of cells); sequences and
mappings hold references; each Python statement reads cells, allocates a
fresh cell, or mutates one cell through a reference.  Chained subscripts
rooted at `new_config` (`new_config['basics']['profiles']`,
`new_config['meta']['breaks_before']`, `new_config['skills']` inside the
loops) are resolved to the references they denote: the source never
reassigns those keys after installing them, so every such lookup yields the
object installed at creation. -/

/-- A Python object: scalars carry their value, sequences and mappings
carry references. -/
inductive HVal where
  | str : String → HVal
  | int : Int → HVal
  | bool : Bool → HVal
  | null : HVal
  | arr : List Nat → HVal
  | dict : List (String × Nat) → HVal
deriving Repr

/-- A heap of objects; references are indices. -/
abbrev Heap := List HVal

/-- First-match lookup in a dict of references. -/
def lookupR : List (String × Nat) → String → Option Nat
  | [], _ => none
  | (k, v) :: rest, key => if k = key then some v else lookupR rest key

/-- Update-or-append in a dict of references (`d[k] = v`). -/
def setR : List (String × Nat) → String → Nat → List (String × Nat)
  | [], key, v => [(key, v)]
  | (k, w) :: rest, key, v =>
      if k = key then (k, v) :: rest else (k, w) :: setR rest key v

/-- Dereference. -/
def readRef (h : Heap) (r : Nat) : Except Err HVal :=
  match h[r]? with
  | some v => .ok v
  | none => .error .typeError

/-- Allocate a fresh cell; the reference is the old heap size. -/
def alloc (h : Heap) (v : HVal) : Nat × Heap := (h.length, h ++ [v])

/-- `d[k]` through a reference. -/
def getKeyH (h : Heap) (r : Nat) (k : String) : Except Err Nat := do
  let v ← readRef h r
  match v with
  | .dict kvs =>
      match lookupR kvs k with
      | some r2 => .ok r2
      | none => .error (.keyError k)
  | _ => .error .typeError

/-- `d.get(k, default)` through a reference. -/
def getDH (h : Heap) (r : Nat) (k : String) (dflt : Nat) : Except Err Nat := do
  let v ← readRef h r
  match v with
  | .dict kvs =>
      match lookupR kvs k with
      | some r2 => .ok r2
      | none => .ok dflt
  | _ => .error .typeError

/-- `k in d` through a reference. -/
def hasKeyH (h : Heap) (r : Nat) (k : String) : Bool :=
  match h[r]? with
  | some (.dict kvs) => (lookupR kvs k).isSome
  | _ => false

/-- Python truthiness of the object behind a reference. -/
def truthyH (h : Heap) (r : Nat) : Except Err Bool := do
  let v ← readRef h r
  match v with
  | .str s => .ok (decide (s ≠ ""))
  | .int n => .ok (decide (n ≠ 0))
  | .bool b => .ok b
  | .null => .ok false
  | .arr rs => .ok (!rs.isEmpty)
  | .dict kvs => .ok (!kvs.isEmpty)

/-- `str()` of the object behind a reference. -/
def asStrH (h : Heap) (r : Nat) : Except Err String := do
  let v ← readRef h r
  match v with
  | .str s => .ok s
  | .int n => .ok (toString n)
  | .bool b => .ok (if b then "True" else "False")
  | .null => .ok "None"
  | .arr _ => .ok "[...]"
  | .dict _ => .ok "{...}"

/-- Iterating the sequence behind a reference. -/
def asListH (h : Heap) (r : Nat) : Except Err (List Nat) := do
  let v ← readRef h r
  match v with
  | .arr rs => .ok rs
  | _ => .error .typeError

/-- `d[k] = v` through a reference: mutates the dict cell in place. -/
def setKeyH (h : Heap) (r : Nat) (k : String) (vr : Nat) :
    Except Err Heap := do
  let v ← readRef h r
  match v with
  | .dict kvs => .ok (h.set r (.dict (setR kvs k vr)))
  | _ => .error .typeError

/-- `l.append(v)` through a reference: mutates the array cell in place. -/
def appendH (h : Heap) (r : Nat) (vr : Nat) : Except Err Heap := do
  let v ← readRef h r
  match v with
  | .arr rs => .ok (h.set r (.arr (rs ++ [vr])))
  | _ => .error .typeError

/-- `get_month_from` over the heap. -/
def get_month_from_H (h : Heap) (r : Nat) : Except Err String := do
  let v ← readRef h r
  match v with
  | .dict kvs =>
      match lookupR kvs "month" with
      | some mr => do
          let mv ← readRef h mr
          match mv with
          | .str s => do
              let n ← strptimeMonth s
              pure (fmtMonth n)
          | _ => .error .typeError
      | none => .ok "01"
  | _ => .error .typeError

/-- The skills loop (resumy.py:148-152) over the heap: builds each category
entry and appends it to the `new_config['skills']` array. -/
def skillsLoopH (skArr : Nat) : Heap → List Nat → Except Err Heap
  | h, [] => .ok h
  | h, c :: rest => do
      let titleR ← getKeyH h c "title"
      let contentR ← getKeyH h c "content"
      let items ← asListH h contentR
      let names ← mapME (fun sr => getKeyH h sr "name") items
      let (kwArr, h1) := alloc h (.arr names)
      let (entry, h2) := alloc h1 (.dict [("name", titleR), ("keywords", kwArr)])
      let h3 ← appendH h2 skArr entry
      skillsLoopH skArr h3 rest

/-- The `endDate` conditional of the work loop body (resumy.py:165-167):
when taken, it mutates the `new_work` cell. -/
def workEndDateH (h2 : Heap) (wr nw : Nat) : Except Err Heap :=
  if ¬ hasKeyH h2 wr "present" ∧ hasKeyH h2 wr "to" then do
    let toR ← getKeyH h2 wr "to"
    let toMonth ← get_month_from_H h2 toR
    let toYearR ← getKeyH h2 toR "year"
    let toYearS ← asStrH h2 toYearR
    let (edRef, h2b) := alloc h2 (.str (toYearS ++ "-" ++ toMonth ++ "-01"))
    setKeyH h2b nw "endDate" edRef
  else pure h2

/-- The work loop (resumy.py:157-168) over the heap; returns the references
the loop variables `work` and `new_work` are left bound to. -/
def workLoopH (workArr : Nat) :
    Heap → List Nat → Option (Nat × Nat) →
    Except Err (Heap × Option (Nat × Nat))
  | h, [], last => .ok (h, last)
  | h, wr :: rest, _ => do
      let fromR ← getKeyH h wr "from"
      let fromMonth ← get_month_from_H h fromR
      let companyR ← getKeyH h wr "company_name"
      let titleR ← getKeyH h wr "title"
      let yearR ← getKeyH h fromR "year"
      let yearS ← asStrH h yearR
      let descrR ← getKeyH h wr "description"
      let (sdRef, h1) := alloc h (.str (yearS ++ "-" ++ fromMonth ++ "-01"))
      let (nw, h2) := alloc h1 (.dict [("name", companyR),
        ("position", titleR), ("startDate", sdRef), ("highlights", descrR)])
      let h3 ← workEndDateH h2 wr nw
      let h4 ← appendH h3 workArr nw
      workLoopH workArr h4 rest (some (wr, nw))

/-- Reading the leaked `work` / `new_work` variables (resumy.py:180-182). -/
def eduGuardH : Option (Nat × Nat) → Except Err (Nat × Nat)
  | some p => .ok p
  | none => .error (.nameError "work")

/-- The buggy conditional of the education loop body (resumy.py:180-182):
when the last legacy job entry (behind `wnw.1`) has no `present` key it
mutates the last canonical work entry (behind `wnw.2`). -/
def eduEndDateH (h2 : Heap) (er : Nat) (wnw : Nat × Nat) : Except Err Heap :=
  if hasKeyH h2 wnw.1 "present" then pure h2
  else do
    let toR ← getKeyH h2 er "to"
    let toMonth ← get_month_from_H h2 toR
    let toYearR ← getKeyH h2 toR "year"
    let toYearS ← asStrH h2 toYearR
    let (edRef, h2b) := alloc h2 (.str (toYearS ++ "-" ++ toMonth ++ "-01"))
    setKeyH h2b wnw.2 "endDate" edRef

/-- The education loop (resumy.py:173-183) over the heap: `new_edu` never
receives an `endDate`; instead, when the last legacy job entry (behind
`lastNW.1`) has no `present` key, the loop mutates the last canonical work
entry (behind `lastNW.2`). -/
def eduLoopH (eduArr : Nat) (lastNW : Option (Nat × Nat)) :
    Heap → List Nat → Except Err Heap
  | h, [] => .ok h
  | h, er :: rest => do
      let fromR ← getKeyH h er "from"
      let fromMonth ← get_month_from_H h fromR
      let companyR ← getKeyH h er "company_name"
      let titleR ← getKeyH h er "title"
      let yearR ← getKeyH h fromR "year"
      let yearS ← asStrH h yearR
      let (sdRef, h1) := alloc h (.str (yearS ++ "-" ++ fromMonth ++ "-01"))
      let (ne, h2) := alloc h1 (.dict [("institution", companyR),
        ("area", titleR), ("startDate", sdRef)])
      let wnw ← eduGuardH lastNW
      let h3 ← eduEndDateH h2 er wnw
      let h4 ← appendH h3 eduArr ne
      eduLoopH eduArr lastNW h4 rest

/-- The `url` conditional of the projects loop body (resumy.py:194-195):
when taken, it mutates the `new_project` cell. -/
def projUrlH (h2 : Heap) (pr np : Nat) : Except Err Heap :=
  if hasKeyH h2 pr "url" then do
    let u ← getKeyH h2 pr "url"
    setKeyH h2 np "url" u
  else pure h2

/-- The projects loop (resumy.py:188-197) over the heap. -/
def projLoopH (projArr : Nat) : Heap → List Nat → Except Err Heap
  | h, [] => .ok h
  | h, pr :: rest => do
      let nameR ← getKeyH h pr "name"
      let (emptyRef, h0) := alloc h (.str "")
      let descrR ← getDH h0 pr "description" emptyRef
      let skillsR ← getKeyH h0 pr "skills"
      let items ← asListH h0 skillsR
      let names ← mapME (fun sr => getKeyH h0 sr "name") items
      let (kwArr, h1) := alloc h0 (.arr names)
      let (np, h2) := alloc h1 (.dict [("name", nameR),
        ("description", descrR), ("keywords", kwArr)])
      let h3 ← projUrlH h2 pr np
      let h4 ← appendH h3 projArr np
      projLoopH projArr h4 rest

/-- The `include_page_break` flag (resumy.py:145-146 and analogues): when
the key is present the section name is installed in `breaks_before`. -/
def breakFlagH (h : Heap) (sec bbRef : Nat) (name : String) :
    Except Err Heap :=
  if hasKeyH h sec "include_page_break" then do
    let (tRef, hx) := alloc h (.bool true)
    setKeyH hx bbRef name tRef
  else pure h

/-- The skills section (resumy.py:144-152) over the heap. -/
def skillsSectionH (h : Heap) (config ncRef bbRef : Nat) :
    Except Err Heap := do
  let skillsSec ← getKeyH h config "skills"
  let t ← truthyH h skillsSec
  if t then do
    let h1 ← breakFlagH h skillsSec bbRef "skills"
    let (skArr, h2) := alloc h1 (.arr [])
    let h3 ← setKeyH h2 ncRef "skills" skArr
    let contentR ← getKeyH h3 skillsSec "content"
    let items ← asListH h3 contentR
    skillsLoopH skArr h3 items
  else pure h

/-- The job-experience section (resumy.py:153-168) over the heap. -/
def workSectionH (h : Heap) (config ncRef bbRef : Nat) :
    Except Err (Heap × Option (Nat × Nat)) := do
  let jobSec ← getKeyH h config "job_experience"
  let t ← truthyH h jobSec
  if t then do
    let h1 ← breakFlagH h jobSec bbRef "work"
    let (workArr, h2) := alloc h1 (.arr [])
    let h3 ← setKeyH h2 ncRef "work" workArr
    let contentR ← getKeyH h3 jobSec "content"
    let items ← asListH h3 contentR
    workLoopH workArr h3 items none
  else pure (h, none)

/-- The education section (resumy.py:169-183) over the heap. -/
def eduSectionH (h : Heap) (config ncRef bbRef : Nat)
    (lastNW : Option (Nat × Nat)) : Except Err Heap := do
  let eduSec ← getKeyH h config "education"
  let t ← truthyH h eduSec
  if t then do
    let h1 ← breakFlagH h eduSec bbRef "education"
    let (eduArr, h2) := alloc h1 (.arr [])
    let h3 ← setKeyH h2 ncRef "education" eduArr
    let contentR ← getKeyH h3 eduSec "content"
    let items ← asListH h3 contentR
    eduLoopH eduArr lastNW h3 items
  else pure h

/-- The projects section (resumy.py:184-197) over the heap. -/
def projSectionH (h : Heap) (config ncRef bbRef : Nat) :
    Except Err Heap := do
  let projSec ← getKeyH h config "projects"
  let t ← truthyH h projSec
  if t then do
    let h1 ← breakFlagH h projSec bbRef "projects"
    let (projArr, h2) := alloc h1 (.arr [])
    let h3 ← setKeyH h2 ncRef "projects" projArr
    let contentR ← getKeyH h3 projSec "content"
    let items ← asListH h3 contentR
    projLoopH projArr h3 items
  else pure h

/-- The `location` conditional (resumy.py:127-131): when either field is
truthy it installs a fresh location object into the `basics` cell. -/
def locationBlockH (h6 : Heap) (basicsRef cityR countryR : Nat)
    (ct cn : Bool) : Except Err Heap :=
  if ct || cn then do
    let (locRef, hx) := alloc h6 (.dict [("city", cityR),
      ("countryCode", countryR)])
    setKeyH hx basicsRef "location" locRef
  else pure h6

/-- A social-profile conditional (resumy.py:132-137 and 138-143): when the
username is truthy a fresh entry is appended to the `profiles` array. -/
def profileEntryBlockH (h : Heap) (profilesRef userR : Nat)
    (network urlBase : String) (t : Bool) : Except Err Heap :=
  if t then do
    let s ← asStrH h userR
    let (netRef, ha) := alloc h (.str network)
    let (uRef, hb) := alloc ha (.str (urlBase ++ s))
    let (eRef, hc) := alloc hb (.dict [("network", netRef),
      ("username", userR), ("url", uRef)])
    appendH hc profilesRef eRef
  else pure h

/-- `from_resumy_to_jsonschema` (resumy.py:113-198) over the heap,
statement by statement: the input document sits behind `config`; the
result is the reference to `new_config` together with the final heap. -/
def from_resumy_to_jsonschema_heap (h : Heap) (config : Nat) :
    Except Err (Nat × Heap) := do
  let profile ← getKeyH h config "profile"
  let fnR ← getKeyH h profile "firstname"
  let fnS ← asStrH h fnR
  let lnR ← getKeyH h profile "lastname"
  let lnS ← asStrH h lnR
  let emailR ← getKeyH h profile "email"
  let phoneR ← getKeyH h profile "phone"
  let urlR ← getKeyH h profile "portfolio_url"
  let (bbRef, h1) := alloc h (.dict [])
  let (metaRef, h2) := alloc h1 (.dict [("breaks_before", bbRef)])
  let (nameRef, h3) := alloc h2 (.str (fnS ++ " " ++ lnS))
  let (profilesRef, h4) := alloc h3 (.arr [])
  let (basicsRef, h5) := alloc h4 (.dict [("name", nameRef),
    ("email", emailR), ("phone", phoneR), ("url", urlR),
    ("profiles", profilesRef)])
  let (ncRef, h6) := alloc h5 (.dict [("meta", metaRef),
    ("basics", basicsRef)])
  -- location (lines 127-131)
  let cityR ← getKeyH h6 profile "city"
  let ct ← truthyH h6 cityR
  let countryR ← getKeyH h6 profile "country"
  let cn ← truthyH h6 countryR
  let h7 ← locationBlockH h6 basicsRef cityR countryR ct cn
  -- github (lines 132-137)
  let ghR ← getKeyH h7 profile "github_username"
  let ghT ← truthyH h7 ghR
  let h8 ← profileEntryBlockH h7 profilesRef ghR "Github"
    "https://github.com/" ghT
  -- linkedin (lines 138-143)
  let liR ← getKeyH h8 profile "linkedin_username"
  let liT ← truthyH h8 liR
  let h9 ← profileEntryBlockH h8 profilesRef liR "Linkedin"
    "https://www.linkedin.com/" liT
  let h10 ← skillsSectionH h9 config ncRef bbRef
  let hw ← workSectionH h10 config ncRef bbRef
  let h12 ← eduSectionH hw.1 config ncRef bbRef hw.2
  let h13 ← projSectionH h12 config ncRef bbRef
  pure (ncRef, h13)

/-- A concrete heap holding `exampleMinimalConfig`: cells 0-8 are the
profile's scalars, cell 9 the profile mapping, cells 10-13 the four null
section values, cell 14 the root mapping. -/
def exampleHeap : Heap := [
  .str "Ada", .str "Lovelace", .str "ada@example.org", .str "123",
  .str "https://ada.dev", .str "London", .str "UK", .str "ada", .str "",
  .dict [("firstname", 0), ("lastname", 1), ("email", 2), ("phone", 3),
    ("portfolio_url", 4), ("city", 5), ("country", 6),
    ("github_username", 7), ("linkedin_username", 8)],
  .null, .null, .null, .null,
  .dict [("profile", 9), ("skills", 10), ("job_experience", 11),
    ("education", 12), ("projects", 13)]]

/-- The reference of the root mapping of `exampleHeap`. -/
def exampleHeapRoot : Nat := 14

/-- The (reference, final heap) pair produced by running the heap
transformer on `exampleHeap`. -/
def exampleHeapResult : Nat × Heap :=
  match from_resumy_to_jsonschema_heap exampleHeap exampleHeapRoot with
  | .ok p => p
  | .error _ => (0, [])

/-! # Theorems -/

/-! ## Inversion helpers -/

/-- Inversion for a successful `Except` bind. -/
theorem exceptBind_ok {α β : Type} {x : Except Err α} {f : α → Except Err β}
    {b : β} (h : x >>= f = .ok b) : ∃ a, x = .ok a ∧ f a = .ok b := by
  cases x with
  | ok a => exact ⟨a, rfl, h⟩
  | error e => simp [Bind.bind, Except.bind] at h

/-- A successful `Except` is `.ok` of something. -/
theorem exceptIsOk_iff {α : Type} {x : Except Err α} :
    x.isOk = true ↔ ∃ a, x = .ok a := by
  cases x <;> simp [Except.isOk, Except.toBool]

/-! ## C4: the education loop mutates the last canonical work entry -/

/-- C4: on `exampleEduPatch`, processing the education entry overwrites the
`endDate` of the already-emitted canonical work entry with the education
entry's `to` date (`2014-01-01` instead of the job entry's own
`2021-01-01`, as witnessed by `exampleEduPatchNoEdu`), while the canonical
education entry itself has no `endDate`. -/
theorem edu_loop_patches_last_work :
    (from_resumy_to_jsonschema exampleEduPatch).map (fun out =>
        ((outSection out "work").map (fun w => w.find "endDate"),
         (outSection out "education").map (fun e => e.find "endDate")))
      = .ok ([some (.str "2014-01-01")], [none]) ∧
    (from_resumy_to_jsonschema exampleEduPatchNoEdu).map (fun out =>
        (outSection out "work").map (fun w => w.find "endDate"))
      = .ok [some (.str "2021-01-01")] :=
  ⟨rfl, rfl⟩

/-! ## Counterexamples: absent section keys raise -/

/-- C1 counterexample: `exampleNoSectionKeys` conforms to the spec's legacy
dialect (its optional sections are absent and `profile` exists), yet the
transformer raises a `KeyError` on the absent `skills` key instead of
returning a canonical document. -/
theorem transform_raises_on_absent_skills :
    from_resumy_to_jsonschema exampleNoSectionKeys
      = .error (.keyError "skills") := rfl

/-- C2 counterexample: in `exampleOnlySkillsKey` every optional section is
missing (absent or falsy) as the claim allows, yet the transformer raises a
`KeyError` on the absent `job_experience` key instead of producing a
document with only `meta` and `basics`. -/
theorem transform_raises_on_absent_job_experience :
    from_resumy_to_jsonschema exampleOnlySkillsKey
      = .error (.keyError "job_experience") := rfl

/-! ## C5 counterexample: an I/O error escapes `cmd_validate` -/

/-- C5 counterexample: when loading the config file raises an `IOError`
(errno 2, e.g. a missing file), `cmd_validate` does not convert it to an
exit code — the exception escapes the handler uncaught. -/
theorem cmd_validate_leaks_ioError :
    cmd_validate (.error (.ioError 2)) (fun _ => .ok ())
      = .error (.ioError 2) := rfl

/-! ## C7: month derivation -/

/-- A hit in `idxOf` is a position inside the list. -/
theorem idxOf_lt_length {s : String} :
    ∀ {l : List String} {i : Nat}, idxOf s l = some i → i < l.length := by
  intro l
  induction l with
  | nil => intro i h; simp [idxOf] at h
  | cons m rest ih =>
      intro i h
      rw [idxOf] at h
      by_cases hm : m = s
      · rw [if_pos hm] at h
        cases h
        simp
      · rw [if_neg hm] at h
        rcases Option.map_eq_some'.mp h with ⟨j, hj, hji⟩
        have := ih hj
        simp only [List.length_cons]
        omega

/-- C7: a `PartialDate` mapping without a `month` key yields exactly
`"01"`; a present `month` string is matched case-insensitively against the
three-letter abbreviation table and rendered as a zero-padded two-digit
numeric month; an unrecognized abbreviation raises `DateParseError`. -/
theorem get_month_from_spec :
    (∀ kvs, lookupKV kvs "month" = none →
      get_month_from (.map kvs) = .ok "01") ∧
    (∀ kvs s i, lookupKV kvs "month" = some (.str s) →
      idxOf (lowerStr s) monthAbbrevs = some i →
      get_month_from (.map kvs) = .ok (fmtMonth (i + 1)) ∧
        (fmtMonth (i + 1)).length = 2) ∧
    (∀ kvs s, lookupKV kvs "month" = some (.str s) →
      idxOf (lowerStr s) monthAbbrevs = none →
      get_month_from (.map kvs) = .error (.dateParseError s)) := by
  refine ⟨?_, ?_, ?_⟩
  · intro kvs h
    simp [get_month_from, h]
  · intro kvs s i h hi
    have hlt : i < monthAbbrevs.length := idxOf_lt_length hi
    constructor
    · simp [get_month_from, h, strptimeMonth, hi, Bind.bind, Except.bind,
        Pure.pure, Except.pure]
    · simp only [monthAbbrevs, List.length_cons, List.length_nil] at hlt
      interval_cases i <;> rfl
  · intro kvs s h hi
    simp [get_month_from, h, strptimeMonth, hi, Bind.bind, Except.bind]

/-- Witness for `get_month_from_spec` at concrete dates. -/
theorem get_month_from_spec_witness :
    get_month_from (.map [("year", .int 2020)]) = .ok "01" ∧
    get_month_from (.map [("month", .str "Mar")]) = .ok "03" ∧
    get_month_from (.map [("month", .str "Smarch")])
      = .error (.dateParseError "Smarch") := by
  refine ⟨get_month_from_spec.1 [("year", .int 2020)] rfl, ?_,
    get_month_from_spec.2.2 [("month", .str "Smarch")] "Smarch" rfl rfl⟩
  have h := (get_month_from_spec.2.1 [("month", .str "Mar")] "Mar" 2 rfl rfl).1
  exact h

/-! ## C10: metadata normalization -/

/-- `defaultAuthor` never touches the keyword list. -/
theorem defaultAuthor_keyword {a a' : Args} {config : Yaml}
    (h : defaultAuthor a config = .ok a') : a'.keyword = a.keyword := by
  rw [defaultAuthor] at h
  by_cases hf : optFalsy a.author = true
  · rw [if_pos hf] at h
    obtain ⟨p, hp, h⟩ := exceptBind_ok h
    obtain ⟨fn, hfn, h⟩ := exceptBind_ok h
    obtain ⟨ln, hln, h⟩ := exceptBind_ok h
    cases h
    rfl
  · rw [if_neg hf] at h
    cases h
    rfl

/-- C10: `normalize_args` passes every field through unchanged when
`auto_metadata` is unset; when it is set and the supplied keyword list is
empty, a successful result carries exactly the keyword list `["resume"]`. -/
theorem normalize_args_spec (env : MetaEnv) (args : Args) (config : Yaml) :
    (args.auto_metadata = false → normalize_args env args config = .ok args) ∧
    (∀ result, args.auto_metadata = true → args.keyword = [] →
      normalize_args env args config = .ok result →
      result.keyword = ["resume"]) := by
  constructor
  · intro h
    simp [normalize_args, h, Pure.pure, Except.pure]
  · intro result hauto hkw h
    rw [normalize_args, hauto] at h
    simp only [if_true] at h
    obtain ⟨a4, ha4, h⟩ := exceptBind_ok h
    have hkw4 : a4.keyword = [] := by
      rw [defaultAuthor_keyword ha4]
      split <;> split <;> split <;> simpa using hkw
    cases h
    simp [hkw4]

/-- Witness for `normalize_args_spec`: both conjuncts at concrete flags. -/
theorem normalize_args_spec_witness :
    (normalize_args ⟨"2024-01-01", none⟩
      ⟨false, none, none, [], none, none, "out.pdf"⟩ (.map [])
      = .ok ⟨false, none, none, [], none, none, "out.pdf"⟩) ∧
    ∃ result, normalize_args ⟨"2024-01-01", none⟩
        ⟨true, none, some "Ada", [], none, none, "out.pdf"⟩ (.map [])
        = .ok result ∧ result.keyword = ["resume"] := by
  constructor
  · exact (normalize_args_spec ⟨"2024-01-01", none⟩
      ⟨false, none, none, [], none, none, "out.pdf"⟩ (.map [])).1 rfl
  · refine ⟨_, rfl, ?_⟩
    exact (normalize_args_spec ⟨"2024-01-01", none⟩
      ⟨true, none, some "Ada", [], none, none, "out.pdf"⟩ (.map [])).2 _ rfl rfl rfl

/-! ## Inversion of a successful transformation -/

/-- A successful run of the transformer decomposes into successful runs of
its sections, and the output is their assembly. -/
theorem transform_ok_elim {config out : Yaml}
    (h : from_resumy_to_jsonschema config = .ok out) :
    ∃ profile basics skillsSec sk jobSec wk eduSec ed projSec pj,
      config.getKey "profile" = .ok profile ∧
      mkBasics profile = .ok basics ∧
      config.getKey "skills" = .ok skillsSec ∧
      sectionSkills skillsSec = .ok sk ∧
      config.getKey "job_experience" = .ok jobSec ∧
      sectionWork jobSec = .ok wk ∧
      config.getKey "education" = .ok eduSec ∧
      sectionEdu eduSec (lastWorkOf wk) = .ok ed ∧
      config.getKey "projects" = .ok projSec ∧
      sectionProjects projSec = .ok pj ∧
      out = assemble basics sk wk ed pj := by
  rw [from_resumy_to_jsonschema] at h
  obtain ⟨profile, hp, h⟩ := exceptBind_ok h
  obtain ⟨basics, hb, h⟩ := exceptBind_ok h
  obtain ⟨skillsSec, hss, h⟩ := exceptBind_ok h
  obtain ⟨sk, hsk, h⟩ := exceptBind_ok h
  obtain ⟨jobSec, hjs, h⟩ := exceptBind_ok h
  obtain ⟨wk, hwk, h⟩ := exceptBind_ok h
  obtain ⟨eduSec, hes, h⟩ := exceptBind_ok h
  obtain ⟨ed, hed, h⟩ := exceptBind_ok h
  obtain ⟨projSec, hps, h⟩ := exceptBind_ok h
  obtain ⟨pj, hpj, h⟩ := exceptBind_ok h
  simp only [Pure.pure, Except.pure, Except.ok.injEq] at h
  exact ⟨profile, basics, skillsSec, sk, jobSec, wk, eduSec, ed, projSec, pj,
    hp, hb, hss, hsk, hjs, hwk, hes, hed, hps, hpj, h.symm⟩

/-- The assembled document's `basics` entry. -/
theorem assemble_find_basics (b : Yaml) (sk : Option (Bool × List Yaml))
    (wk : Option (Bool × List Yaml × Option Yaml))
    (ed : Option (Bool × List Yaml × Option String))
    (pj : Option (Bool × List Yaml)) :
    (assemble b sk wk ed pj).find "basics" = some b := by
  simp [assemble, Yaml.find, lookupKV]

/-- The assembled document's `skills` entry. -/
theorem assemble_find_skills (b : Yaml) (sk : Option (Bool × List Yaml))
    (wk : Option (Bool × List Yaml × Option Yaml))
    (ed : Option (Bool × List Yaml × Option String))
    (pj : Option (Bool × List Yaml)) :
    (assemble b sk wk ed pj).find "skills" =
      (match sk with
       | some (_, outs) => some (.list outs)
       | none => none) := by
  rcases sk with _ | ⟨sbrk, souts⟩ <;>
    rcases wk with _ | ⟨wbrk, wouts, lw⟩ <;>
    rcases ed with _ | ⟨ebrk, eouts, _ | d⟩ <;>
    rcases pj with _ | ⟨pbrk, pouts⟩ <;>
    simp [assemble, workFinalOf, Yaml.find, lookupKV]

/-- The assembled document's `work` entry: the canonical work list, its
last element patched when the education loop produced an `endDate`
assignment. -/
theorem assemble_find_work (b : Yaml) (sk : Option (Bool × List Yaml))
    (wk : Option (Bool × List Yaml × Option Yaml))
    (ed : Option (Bool × List Yaml × Option String))
    (pj : Option (Bool × List Yaml)) :
    (assemble b sk wk ed pj).find "work" =
      (match wk with
       | none => none
       | some (_, outs, _) =>
           match ed with
           | some (_, _, some d) => some (.list (patchLastEndDate outs d))
           | _ => some (.list outs)) := by
  rcases sk with _ | ⟨sbrk, souts⟩ <;>
    rcases wk with _ | ⟨wbrk, wouts, lw⟩ <;>
    rcases ed with _ | ⟨ebrk, eouts, _ | d⟩ <;>
    rcases pj with _ | ⟨pbrk, pouts⟩ <;>
    simp [assemble, workFinalOf, Yaml.find, lookupKV]

/-- The assembled document's `education` entry. -/
theorem assemble_find_education (b : Yaml) (sk : Option (Bool × List Yaml))
    (wk : Option (Bool × List Yaml × Option Yaml))
    (ed : Option (Bool × List Yaml × Option String))
    (pj : Option (Bool × List Yaml)) :
    (assemble b sk wk ed pj).find "education" =
      (match ed with
       | some (_, outs, _) => some (.list outs)
       | none => none) := by
  rcases sk with _ | ⟨sbrk, souts⟩ <;>
    rcases wk with _ | ⟨wbrk, wouts, lw⟩ <;>
    rcases ed with _ | ⟨ebrk, eouts, _ | d⟩ <;>
    rcases pj with _ | ⟨pbrk, pouts⟩ <;>
    simp [assemble, workFinalOf, Yaml.find, lookupKV]

/-- The `profiles` list inside a successfully built `basics`: a Github
entry iff `github_username` is truthy, then a Linkedin entry iff
`linkedin_username` is truthy. -/
theorem mkBasics_profiles {profile basics gh li : Yaml}
    (h : mkBasics profile = .ok basics)
    (hg : profile.getKey "github_username" = .ok gh)
    (hl : profile.getKey "linkedin_username" = .ok li) :
    basics.find "profiles" = some (.list
      ((if gh.truthy then [githubEntry gh] else []) ++
       (if li.truthy then [linkedinEntry li] else []))) := by
  rw [mkBasics] at h
  obtain ⟨fn, hfn, h⟩ := exceptBind_ok h
  obtain ⟨ln, hln, h⟩ := exceptBind_ok h
  obtain ⟨em, hem, h⟩ := exceptBind_ok h
  obtain ⟨ph, hph, h⟩ := exceptBind_ok h
  obtain ⟨pu, hpu, h⟩ := exceptBind_ok h
  obtain ⟨ci, hci, h⟩ := exceptBind_ok h
  obtain ⟨co, hco, h⟩ := exceptBind_ok h
  obtain ⟨gh', hgh, h⟩ := exceptBind_ok h
  obtain ⟨li', hli, h⟩ := exceptBind_ok h
  rw [hg] at hgh
  rw [hl] at hli
  injection hgh with hgh
  injection hli with hli
  subst hgh
  subst hli
  simp only [Pure.pure, Except.pure, Except.ok.injEq] at h
  subst h
  split <;> simp [Yaml.find, lookupKV]

/-! ## C8: the `basics.profiles` sequence -/

/-- C8: in any successful transformation, `basics.profiles` is the
concatenation of a Github entry (iff `github_username` is truthy) and a
Linkedin entry (iff `linkedin_username` is truthy) — Github always first —
and is empty when both usernames are falsy. -/
theorem basics_profiles_spec {config out profile gh li : Yaml}
    (h : from_resumy_to_jsonschema config = .ok out)
    (hp : config.getKey "profile" = .ok profile)
    (hg : profile.getKey "github_username" = .ok gh)
    (hl : profile.getKey "linkedin_username" = .ok li) :
    ∃ basics, out.find "basics" = some basics ∧
      basics.find "profiles" = some (.list
        ((if gh.truthy then [githubEntry gh] else []) ++
         (if li.truthy then [linkedinEntry li] else []))) ∧
      (gh.truthy = false → li.truthy = false →
        basics.find "profiles" = some (.list [])) := by
  obtain ⟨profile', basics, skillsSec, sk, jobSec, wk, eduSec, ed, projSec,
    pj, hp', hb, _, _, _, _, _, _, _, _, hout⟩ := transform_ok_elim h
  rw [hp] at hp'
  injection hp' with hp'
  subst hp'
  subst hout
  refine ⟨basics, assemble_find_basics _ _ _ _ _, mkBasics_profiles hb hg hl, ?_⟩
  intro hgf hlf
  rw [mkBasics_profiles hb hg hl, hgf, hlf]
  simp

/-- Witness for `basics_profiles_spec` on `exampleMinimalConfig`
(`github_username` truthy, `linkedin_username` falsy). -/
theorem basics_profiles_spec_witness :
    ∃ basics, exampleMinimalOut.find "basics" = some basics ∧
      basics.find "profiles" = some (.list
        ((if (Yaml.str "ada").truthy then [githubEntry (.str "ada")] else []) ++
         (if (Yaml.str "").truthy then [linkedinEntry (.str "")] else []))) ∧
      ((Yaml.str "ada").truthy = false → (Yaml.str "").truthy = false →
        basics.find "profiles" = some (.list [])) :=
  @basics_profiles_spec exampleMinimalConfig exampleMinimalOut exampleProfile
    (.str "ada") (.str "") rfl rfl rfl rfl

/-! ## C9: the skills round-trip scenario -/

/-- C9: any successful transformation of a document whose `skills` section
is `{content: [{title: Languages, content: [{name: Go}, {name: Rust}]}]}`
yields canonical `skills = [{name: Languages, keywords: [Go, Rust]}]`,
orders preserved. -/
theorem skills_roundtrip_spec {config out : Yaml}
    (h : from_resumy_to_jsonschema config = .ok out)
    (hs : config.getKey "skills" = .ok exampleSkillsSection) :
    out.find "skills" = some (.list [.map
      [("name", .str "Languages"),
       ("keywords", .list [.str "Go", .str "Rust"])]]) := by
  obtain ⟨profile, basics, skillsSec, sk, jobSec, wk, eduSec, ed, projSec,
    pj, _, _, hss, hsk, _, _, _, _, _, _, hout⟩ := transform_ok_elim h
  rw [hs] at hss
  injection hss with hss
  subst hss
  have : sectionSkills exampleSkillsSection = .ok (some (false,
      [.map [("name", .str "Languages"),
             ("keywords", .list [.str "Go", .str "Rust"])]])) := rfl
  rw [this] at hsk
  injection hsk with hsk
  subst hsk
  subst hout
  rw [assemble_find_skills]

/-- Witness for `skills_roundtrip_spec` on `exampleSkillsConfig`. -/
theorem skills_roundtrip_spec_witness :
    exampleSkillsOut.find "skills" = some (.list [.map
      [("name", .str "Languages"),
       ("keywords", .list [.str "Go", .str "Rust"])]]) :=
  @skills_roundtrip_spec exampleSkillsConfig exampleSkillsOut rfl rfl

/-! ## Reading back successful accesses -/

/-- A successful subscript means the key is present. -/
theorem getKey_ok_find {y v : Yaml} {k : String}
    (h : y.getKey k = .ok v) : y.find k = some v := by
  cases y with
  | map kvs =>
      rw [Yaml.getKey] at h
      rw [Yaml.find]
      cases hl : lookupKV kvs k with
      | some w => rw [hl] at h; injection h with h; rw [h]
      | none => rw [hl] at h; exact (Except.noConfusion h)
  | str s => exact (Except.noConfusion h)
  | int n => exact (Except.noConfusion h)
  | bool b => exact (Except.noConfusion h)
  | null => exact (Except.noConfusion h)
  | list l => exact (Except.noConfusion h)

/-- A successful iteration means the value was a sequence. -/
theorem asList_ok {y : Yaml} {items : List Yaml}
    (h : y.asList = .ok items) : y = .list items := by
  cases y with
  | list l => injection h with h; rw [h]
  | str s => exact (Except.noConfusion h)
  | int n => exact (Except.noConfusion h)
  | bool b => exact (Except.noConfusion h)
  | null => exact (Except.noConfusion h)
  | map kvs => exact (Except.noConfusion h)

/-- A falsy value holds no keys. -/
theorem falsy_find_none {y : Yaml} (k : String)
    (h : y.truthy = false) : y.find k = none := by
  cases y with
  | map m =>
      rw [Yaml.truthy] at h
      simp only [decide_eq_false_iff_not, not_not, List.isEmpty_iff] at h
      subst h
      rfl
  | str s => rfl
  | int n => rfl
  | bool b => rfl
  | null => rfl
  | list l => rfl

/-- `outSection` through a `find` result. -/
theorem outSection_eq {out : Yaml} {name : String} {items : List Yaml}
    (h : out.find name = some (.list items)) : outSection out name = items := by
  rw [outSection, h]

/-- `outSection` of a missing key. -/
theorem outSection_none {out : Yaml} {name : String}
    (h : out.find name = none) : outSection out name = [] := by
  rw [outSection, h]

/-! ## Inverting the section transformers -/

/-- Inversion of the skills section. -/
theorem sectionSkills_elim {skillsSec : Yaml} {sk : Option (Bool × List Yaml)}
    (h : sectionSkills skillsSec = .ok sk) :
    (skillsSec.truthy = false ∧ sk = none) ∨
    (∃ items outs, skillsSec.truthy = true ∧
      skillsSec.find "content" = some (.list items) ∧
      mapME skillCatEntry items = .ok outs ∧
      sk = some (skillsSec.hasKey "include_page_break", outs)) := by
  rw [sectionSkills] at h
  by_cases ht : skillsSec.truthy = true
  · rw [if_pos ht] at h
    obtain ⟨content, hc, h⟩ := exceptBind_ok h
    obtain ⟨items, hi, h⟩ := exceptBind_ok h
    obtain ⟨outs, ho, h⟩ := exceptBind_ok h
    simp only [Pure.pure, Except.pure, Except.ok.injEq] at h
    right
    refine ⟨items, outs, ht, ?_, ho, h.symm⟩
    have hfind := getKey_ok_find hc
    rwa [asList_ok hi] at hfind
  · rw [if_neg ht] at h
    simp only [Pure.pure, Except.pure, Except.ok.injEq] at h
    exact Or.inl ⟨by simpa using ht, h.symm⟩

/-- Inversion of the job-experience section. -/
theorem sectionWork_elim {jobSec : Yaml}
    {wk : Option (Bool × List Yaml × Option Yaml)}
    (h : sectionWork jobSec = .ok wk) :
    (jobSec.truthy = false ∧ wk = none) ∨
    (∃ items outs, jobSec.truthy = true ∧
      jobSec.find "content" = some (.list items) ∧
      transformWorkList items = .ok outs ∧
      wk = some (jobSec.hasKey "include_page_break", outs, items.getLast?)) := by
  rw [sectionWork] at h
  by_cases ht : jobSec.truthy = true
  · rw [if_pos ht] at h
    obtain ⟨content, hc, h⟩ := exceptBind_ok h
    obtain ⟨items, hi, h⟩ := exceptBind_ok h
    obtain ⟨outs, ho, h⟩ := exceptBind_ok h
    simp only [Pure.pure, Except.pure, Except.ok.injEq] at h
    right
    refine ⟨items, outs, ht, ?_, ho, h.symm⟩
    have hfind := getKey_ok_find hc
    rwa [asList_ok hi] at hfind
  · rw [if_neg ht] at h
    simp only [Pure.pure, Except.pure, Except.ok.injEq] at h
    exact Or.inl ⟨by simpa using ht, h.symm⟩

/-- Inversion of the education section. -/
theorem sectionEdu_elim {eduSec : Yaml} {lw : Option Yaml}
    {ed : Option (Bool × List Yaml × Option String)}
    (h : sectionEdu eduSec lw = .ok ed) :
    (eduSec.truthy = false ∧ ed = none) ∨
    (∃ items outs patch, eduSec.truthy = true ∧
      eduSec.find "content" = some (.list items) ∧
      transformEduList lw items = .ok (outs, patch) ∧
      ed = some (eduSec.hasKey "include_page_break", outs, patch)) := by
  rw [sectionEdu] at h
  by_cases ht : eduSec.truthy = true
  · rw [if_pos ht] at h
    obtain ⟨content, hc, h⟩ := exceptBind_ok h
    obtain ⟨items, hi, h⟩ := exceptBind_ok h
    obtain ⟨p, hp, h⟩ := exceptBind_ok h
    obtain ⟨outs, patch⟩ := p
    simp only [Pure.pure, Except.pure, Except.ok.injEq] at h
    right
    refine ⟨items, outs, patch, ht, ?_, hp, h.symm⟩
    have hfind := getKey_ok_find hc
    rwa [asList_ok hi] at hfind
  · rw [if_neg ht] at h
    simp only [Pure.pure, Except.pure, Except.ok.injEq] at h
    exact Or.inl ⟨by simpa using ht, h.symm⟩

/-! ## The `endDate` discipline of the work and education loops -/

/-- A work entry built from a legacy entry carrying `present` has no
`endDate`. -/
theorem workEntry_present {w nw : Yaml}
    (hok : workEntry w = .ok nw)
    (hp : w.hasKey "present" = true) : nw.hasKey "endDate" = false := by
  rw [workEntry] at hok
  obtain ⟨fromDate, h1, hok⟩ := exceptBind_ok hok
  obtain ⟨fromMonth, h2, hok⟩ := exceptBind_ok hok
  obtain ⟨company, h3, hok⟩ := exceptBind_ok hok
  obtain ⟨title, h4, hok⟩ := exceptBind_ok hok
  obtain ⟨fromYear, h5, hok⟩ := exceptBind_ok hok
  obtain ⟨descr, h6, hok⟩ := exceptBind_ok hok
  rw [if_neg (by simp [hp])] at hok
  simp only [Pure.pure, Except.pure, Except.ok.injEq] at hok
  subst hok
  simp [Yaml.hasKey, Yaml.find, lookupKV]

/-- The education loop never writes an `endDate` into `new_edu`. -/
theorem eduEntryBase_no_endDate {e ne : Yaml}
    (h : eduEntryBase e = .ok ne) : ne.hasKey "endDate" = false := by
  rw [eduEntryBase] at h
  obtain ⟨fromDate, h1, h⟩ := exceptBind_ok h
  obtain ⟨fromMonth, h2, h⟩ := exceptBind_ok h
  obtain ⟨company, h3, h⟩ := exceptBind_ok h
  obtain ⟨title, h4, h⟩ := exceptBind_ok h
  obtain ⟨fromYear, h5, h⟩ := exceptBind_ok h
  obtain ⟨year, h6, h⟩ := exceptBind_ok h
  simp only [Pure.pure, Except.pure, Except.ok.injEq] at h
  subst h
  simp [Yaml.hasKey, Yaml.find, lookupKV]

/-- Reading the leaked `work` variable succeeds exactly when the job loop
ran. -/
theorem eduLastWork_ok {lw : Option Yaml} {w : Yaml}
    (h : eduLastWork lw = .ok w) : lw = some w := by
  cases lw with
  | some v => injection h with h; rw [h]
  | none => exact (Except.noConfusion h)

/-- Elementwise inversion of the work loop. -/
theorem transformWorkList_elim {ws outs : List Yaml}
    (h : transformWorkList ws = .ok outs) :
    outs.length = ws.length ∧
    ∀ (i : Nat) (w nw : Yaml), ws[i]? = some w → outs[i]? = some nw →
      workEntry w = .ok nw := by
  induction ws generalizing outs with
  | nil =>
      rw [transformWorkList] at h
      injection h with h
      subst h
      exact ⟨rfl, by intro i w nw hw _; simp at hw⟩
  | cons x xs ih =>
      rw [transformWorkList] at h
      obtain ⟨nw, hnw, h⟩ := exceptBind_ok h
      obtain ⟨rest, hrest, h⟩ := exceptBind_ok h
      simp only [Pure.pure, Except.pure, Except.ok.injEq] at h
      subst h
      obtain ⟨hlen, hall⟩ := ih hrest
      refine ⟨by simp [hlen], ?_⟩
      intro i w nw' hw hnw'
      cases i with
      | zero =>
          rw [List.getElem?_cons_zero] at hw hnw'
          injection hw with hw
          injection hnw' with hnw'
          subst hw
          subst hnw'
          exact hnw
      | succ n =>
          rw [List.getElem?_cons_succ] at hw hnw'
          exact hall n w nw' hw hnw'

/-- The education-loop patch does not change the length of the work
list. -/
theorem patchLastEndDate_length (outs : List Yaml) (d : String) :
    (patchLastEndDate outs d).length = outs.length := by
  induction outs with
  | nil => rfl
  | cons w rest ih =>
      cases rest with
      | nil => cases w <;> rfl
      | cons y ys =>
          rw [patchLastEndDate]
          simpa using ih

/-- The education-loop patch touches only the last element. -/
theorem patchLastEndDate_getElem_lt {outs : List Yaml} {d : String} {i : Nat}
    (h : i + 1 < outs.length) :
    (patchLastEndDate outs d)[i]? = outs[i]? := by
  induction outs generalizing i with
  | nil => simp at h
  | cons w rest ih =>
      cases rest with
      | nil => simp at h
      | cons y ys =>
          rw [patchLastEndDate]
          cases i with
          | zero => simp
          | succ n =>
              rw [List.getElem?_cons_succ, List.getElem?_cons_succ]
              exact ih (by simpa using h)

/-- Inversion of the education loop: no produced entry carries `endDate`,
and a pending `endDate` patch implies the last job entry exists and has no
`present` key. -/
theorem transformEduList_elim {lw : Option Yaml} :
    ∀ {es outs : List Yaml} {patch : Option String},
    transformEduList lw es = .ok (outs, patch) →
    (∀ (j : Nat) (ne : Yaml), outs[j]? = some ne →
      ne.hasKey "endDate" = false) ∧
    (∀ d, patch = some d → ∃ w, lw = some w ∧ w.hasKey "present" = false) := by
  intro es
  induction es with
  | nil =>
      intro outs patch h
      rw [transformEduList] at h
      injection h with h
      injection h with h1 h2
      subst h1
      subst h2
      refine ⟨by intro j ne hj; simp at hj, by intro d hd; cases hd⟩
  | cons e es ih =>
      intro outs patch h
      rw [transformEduList] at h
      obtain ⟨ne, hne, h⟩ := exceptBind_ok h
      obtain ⟨w, hww, h⟩ := exceptBind_ok h
      by_cases hw : w.hasKey "present" = true
      · rw [if_pos hw] at h
        obtain ⟨p, hp, h⟩ := exceptBind_ok h
        obtain ⟨rest, patch'⟩ := p
        simp only [Pure.pure, Except.pure, Except.ok.injEq,
          Prod.mk.injEq] at h
        obtain ⟨houts, hpatch⟩ := h
        subst houts
        subst hpatch
        obtain ⟨ih1, ih2⟩ := ih hp
        constructor
        · intro j ne' hj
          cases j with
          | zero =>
              rw [List.getElem?_cons_zero] at hj
              injection hj with hj
              subst hj
              exact eduEntryBase_no_endDate hne
          | succ n =>
              rw [List.getElem?_cons_succ] at hj
              exact ih1 n ne' hj
        · exact ih2
      · rw [if_neg hw] at h
        obtain ⟨d0, hd0, h⟩ := exceptBind_ok h
        obtain ⟨p, hp, h⟩ := exceptBind_ok h
        obtain ⟨rest, patch'⟩ := p
        simp only [Pure.pure, Except.pure, Except.ok.injEq,
          Prod.mk.injEq] at h
        obtain ⟨houts, hpatch⟩ := h
        subst houts
        subst hpatch
        obtain ⟨ih1, -⟩ := ih hp
        constructor
        · intro j ne' hj
          cases j with
          | zero =>
              rw [List.getElem?_cons_zero] at hj
              injection hj with hj
              subst hj
              exact eduEntryBase_no_endDate hne
          | succ n =>
              rw [List.getElem?_cons_succ] at hj
              exact ih1 n ne' hj
        · intro d hd
          exact ⟨w, eduLastWork_ok hww, by simpa using hw⟩

/-! ## C3: `present` entries never carry an `endDate` -/

/-- C3: in any successful transformation, a legacy job entry carrying a
`present` key yields a canonical work entry without `endDate` (the
education loop's leaked `new_work` assignment only ever touches the last
work entry, and only when the last legacy job entry has no `present` key),
and canonical education entries never carry `endDate` at all. -/
theorem present_omits_endDate {config out : Yaml}
    (h : from_resumy_to_jsonschema config = .ok out) :
    (∀ (i : Nat) (w nw : Yaml),
      (sectionEntries config "job_experience")[i]? = some w →
      (outSection out "work")[i]? = some nw →
      w.hasKey "present" = true → nw.hasKey "endDate" = false) ∧
    (∀ (j : Nat) (ne : Yaml), (outSection out "education")[j]? = some ne →
      ne.hasKey "endDate" = false) := by
  obtain ⟨profile, basics, skillsSec, sk, jobSec, wk, eduSec, ed, projSec, pj,
    hp, hb, hss, hsk, hjs, hwk, hes, hed, hps, hpj, hout⟩ := transform_ok_elim h
  subst hout
  have hjfind : config.find "job_experience" = some jobSec := getKey_ok_find hjs
  constructor
  · intro i w nw hw hnw hpres
    rcases sectionWork_elim hwk with ⟨hjf, rfl⟩ | ⟨items, outs, hjt, hjcontent, htrans, rfl⟩
    · rw [outSection_none (by rw [assemble_find_work])] at hnw
      simp at hnw
    · have hentries : sectionEntries config "job_experience" = items := by
        rw [sectionEntries, hjfind]
        simp [hjcontent]
      rw [hentries] at hw
      obtain ⟨hlen, hall⟩ := transformWorkList_elim htrans
      rcases sectionEdu_elim hed with ⟨hef, rfl⟩ | ⟨eitems, eouts, patch, het, hecontent, hetrans, rfl⟩
      · rw [outSection_eq (by rw [assemble_find_work])] at hnw
        exact workEntry_present (hall i w nw hw hnw) hpres
      · cases patch with
        | none =>
            rw [outSection_eq (by rw [assemble_find_work])] at hnw
            exact workEntry_present (hall i w nw hw hnw) hpres
        | some d =>
            rw [outSection_eq (by rw [assemble_find_work])] at hnw
            by_cases hi : i + 1 < outs.length
            · rw [patchLastEndDate_getElem_lt hi] at hnw
              exact workEntry_present (hall i w nw hw hnw) hpres
            · -- i is the index of the last entry
              obtain ⟨hilt, -⟩ := List.getElem?_eq_some.mp hw
              have hiout : i < outs.length := by omega
              have hlast : i = items.length - 1 := by omega
              obtain ⟨w0, hw0, hw0p⟩ :=
                (transformEduList_elim hetrans).2 d rfl
              rw [lastWorkOf] at hw0
              rw [List.getLast?_eq_getElem?] at hw0
              rw [hlast] at hw
              rw [hw] at hw0
              injection hw0 with hw0
              rw [hw0] at hpres
              rw [hpres] at hw0p
              exact (Bool.noConfusion hw0p)
  · intro j ne hj
    rcases sectionEdu_elim hed with ⟨hef, rfl⟩ | ⟨eitems, eouts, patch, het, hecontent, hetrans, rfl⟩
    · rw [outSection_none (by rw [assemble_find_education])] at hj
      simp at hj
    · rw [outSection_eq (by rw [assemble_find_education])] at hj
      exact (transformEduList_elim hetrans).1 j ne hj

/-- Witness for `present_omits_endDate` on `exampleC3Config`: its only job
entry carries `present` (and a `to` date), and the resulting work and
education entries carry no `endDate`. -/
theorem present_omits_endDate_witness :
    ∃ nw ne, (outSection exampleC3Out "work")[0]? = some nw ∧
      nw.hasKey "endDate" = false ∧
      (outSection exampleC3Out "education")[0]? = some ne ∧
      ne.hasKey "endDate" = false := by
  have h := @present_omits_endDate exampleC3Config exampleC3Out rfl
  refine ⟨_, _, rfl, h.1 0 _ _ rfl rfl rfl, rfl, h.2 0 _ rfl⟩

/-! ## Reduction helpers for successful runs -/

/-- Bind of a success reduces. -/
theorem okBind {α β : Type} (a : α) (f : α → Except Err β) :
    ((Except.ok a : Except Err α) >>= f) = f a := rfl

/-- Bind of a failure reduces. -/
theorem errBind {α β : Type} (e : Err) (f : α → Except Err β) :
    ((Except.error e : Except Err α) >>= f) = .error e := rfl

/-- Subscripting a mapping whose key is present. -/
theorem getKey_map_eq {kvs : List (String × Yaml)} {k : String} {v : Yaml}
    (h : lookupKV kvs k = some v) : (Yaml.map kvs).getKey k = .ok v := by
  rw [Yaml.getKey, h]

/-- Subscripting a mapping whose key is absent. -/
theorem getKey_map_none {kvs : List (String × Yaml)} {k : String}
    (h : lookupKV kvs k = none) :
    (Yaml.map kvs).getKey k = .error (.keyError k) := by
  rw [Yaml.getKey, h]

/-- A present key can be subscripted. -/
theorem getKey_ok_of_find_isSome {y : Yaml} {k : String}
    (h : (y.find k).isSome = true) : ∃ v, y.getKey k = .ok v := by
  cases y with
  | map kvs =>
      rw [Yaml.find] at h
      obtain ⟨v, hv⟩ := Option.isSome_iff_exists.mp h
      exact ⟨v, getKey_map_eq hv⟩
  | str s => simp [Yaml.find] at h
  | int n => simp [Yaml.find] at h
  | bool b => simp [Yaml.find] at h
  | null => simp [Yaml.find] at h
  | list l => simp [Yaml.find] at h

/-- A falsy skills section is skipped. -/
theorem sectionSkills_falsy {s : Yaml} (h : s.truthy = false) :
    sectionSkills s = .ok none := by
  rw [sectionSkills, if_neg (by simp [h])]
  rfl

/-- A falsy job-experience section is skipped. -/
theorem sectionWork_falsy {s : Yaml} (h : s.truthy = false) :
    sectionWork s = .ok none := by
  rw [sectionWork, if_neg (by simp [h])]
  rfl

/-- A falsy education section is skipped. -/
theorem sectionEdu_falsy {s : Yaml} (lw : Option Yaml) (h : s.truthy = false) :
    sectionEdu s lw = .ok none := by
  rw [sectionEdu, if_neg (by simp [h])]
  rfl

/-- A falsy projects section is skipped. -/
theorem sectionProjects_falsy {s : Yaml} (h : s.truthy = false) :
    sectionProjects s = .ok none := by
  rw [sectionProjects, if_neg (by simp [h])]
  rfl

/-- A profile with every read field yields a `basics` object. -/
theorem mkBasics_ok_of_wf {profile : Yaml} (h : wfProfile profile = true) :
    ∃ basics, mkBasics profile = .ok basics := by
  cases profile with
  | map kvs =>
      rw [wfProfile] at h
      simp only [List.all_cons, List.all_nil, Bool.and_eq_true,
        and_true] at h
      obtain ⟨h1, h2, h3, h4, h5, h6, h7, h8, h9⟩ := h
      obtain ⟨fn, hfn⟩ := Option.isSome_iff_exists.mp h1
      obtain ⟨ln, hln⟩ := Option.isSome_iff_exists.mp h2
      obtain ⟨em, hem⟩ := Option.isSome_iff_exists.mp h3
      obtain ⟨ph, hph⟩ := Option.isSome_iff_exists.mp h4
      obtain ⟨pu, hpu⟩ := Option.isSome_iff_exists.mp h5
      obtain ⟨ci, hci⟩ := Option.isSome_iff_exists.mp h6
      obtain ⟨co, hco⟩ := Option.isSome_iff_exists.mp h7
      obtain ⟨gh, hgh⟩ := Option.isSome_iff_exists.mp h8
      obtain ⟨li, hli⟩ := Option.isSome_iff_exists.mp h9
      rw [exceptIsOk_iff.symm]
      rw [mkBasics, getKey_map_eq hfn, okBind, getKey_map_eq hln, okBind,
        getKey_map_eq hem, okBind, getKey_map_eq hph, okBind,
        getKey_map_eq hpu, okBind, getKey_map_eq hci, okBind,
        getKey_map_eq hco, okBind, getKey_map_eq hgh, okBind,
        getKey_map_eq hli, okBind]
      rfl
  | str s => simp [wfProfile] at h
  | int n => simp [wfProfile] at h
  | bool b => simp [wfProfile] at h
  | null => simp [wfProfile] at h
  | list l => simp [wfProfile] at h

/-! ## C2 (amended): falsy optional sections yield only `meta` and
`basics` -/

/-- C2 (amended): if the four optional section keys are *present* with
falsy values (absent keys raise instead, see
`transform_raises_on_absent_job_experience`), the canonical document
consists of exactly the `meta` and `basics` keys. -/
theorem transform_empty_sections {config profile skillsSec jobSec eduSec projSec : Yaml}
    (hp : config.getKey "profile" = .ok profile)
    (hwf : wfProfile profile = true)
    (hs : config.getKey "skills" = .ok skillsSec)
    (hs0 : skillsSec.truthy = false)
    (hj : config.getKey "job_experience" = .ok jobSec)
    (hj0 : jobSec.truthy = false)
    (he : config.getKey "education" = .ok eduSec)
    (he0 : eduSec.truthy = false)
    (hq : config.getKey "projects" = .ok projSec)
    (hq0 : projSec.truthy = false) :
    ∃ basics, from_resumy_to_jsonschema config =
      .ok (.map [("meta", .map [("breaks_before", .map [])]),
                 ("basics", basics)]) := by
  obtain ⟨basics, hb⟩ := mkBasics_ok_of_wf hwf
  refine ⟨basics, ?_⟩
  rw [from_resumy_to_jsonschema, hp, okBind, hb, okBind, hs, okBind,
    sectionSkills_falsy hs0, okBind, hj, okBind, sectionWork_falsy hj0,
    okBind, he, okBind, sectionEdu_falsy _ he0, okBind, hq, okBind,
    sectionProjects_falsy hq0, okBind]
  rfl

/-- Witness for `transform_empty_sections` on `exampleMinimalConfig`. -/
theorem transform_empty_sections_witness :
    ∃ basics, from_resumy_to_jsonschema exampleMinimalConfig =
      .ok (.map [("meta", .map [("breaks_before", .map [])]),
                 ("basics", basics)]) :=
  @transform_empty_sections exampleMinimalConfig exampleProfile
    .null .null .null .null rfl rfl rfl rfl rfl rfl rfl rfl rfl rfl

/-! ## Totality over well-formed documents (for C1) -/

/-- Iterating a literal sequence. -/
theorem asList_list (l : List Yaml) : (Yaml.list l).asList = .ok l := rfl

/-- Reading the leaked variable when the job loop ran. -/
theorem eduLastWork_some (w : Yaml) : eduLastWork (some w) = .ok w := rfl

/-- `hasKey` on a mapping is a lookup. -/
theorem hasKey_map (kvs : List (String × Yaml)) (k : String) :
    (Yaml.map kvs).hasKey k = (lookupKV kvs k).isSome := rfl

/-- Eliminate a required-field check. -/
theorem fieldIs_elim {pred : Yaml → Bool} {o : Option Yaml}
    (h : fieldIs pred o = true) : ∃ v, o = some v ∧ pred v = true := by
  cases o with
  | some v => exact ⟨v, rfl, h⟩
  | none => exact (Bool.noConfusion h)

/-- Eliminate a month-field check. -/
theorem monthFieldOk_elim {o : Option Yaml} (h : monthFieldOk o = true) :
    o = none ∨ ∃ s i, o = some (.str s) ∧
      idxOf (lowerStr s) monthAbbrevs = some i := by
  cases o with
  | none => exact Or.inl rfl
  | some v =>
      cases v with
      | str s =>
          obtain ⟨i, hi⟩ := Option.isSome_iff_exists.mp h
          exact Or.inr ⟨s, i, rfl, hi⟩
      | int n => exact (Bool.noConfusion h)
      | bool b => exact (Bool.noConfusion h)
      | null => exact (Bool.noConfusion h)
      | list l => exact (Bool.noConfusion h)
      | map m => exact (Bool.noConfusion h)

/-- Eliminate a names-sequence check. -/
theorem namesOk_elim {o : Option Yaml} (h : namesOk o = true) :
    ∃ items, o = some (.list items) ∧
      ∀ x ∈ items, (x.find "name").isSome = true := by
  cases o with
  | none => exact (Bool.noConfusion h)
  | some v =>
      cases v with
      | list items =>
          exact ⟨items, rfl, fun x hx => List.all_eq_true.mp h x hx⟩
      | str s => exact (Bool.noConfusion h)
      | int n => exact (Bool.noConfusion h)
      | bool b => exact (Bool.noConfusion h)
      | null => exact (Bool.noConfusion h)
      | map m => exact (Bool.noConfusion h)

/-- Eliminate an optional-content check. -/
theorem optListAll_elim {entryOk : Yaml → Bool} {o : Option (List Yaml)}
    (h : optListAll entryOk o = true) :
    ∃ items, o = some items ∧ ∀ x ∈ items, entryOk x = true := by
  cases o with
  | some items => exact ⟨items, rfl, fun x hx => List.all_eq_true.mp h x hx⟩
  | none => exact (Bool.noConfusion h)

/-- Eliminate a present `content` sequence. -/
theorem sectionContent_elim {s : Yaml} {items : List Yaml}
    (h : sectionContent s = some items) :
    ∃ kvs, s = .map kvs ∧ lookupKV kvs "content" = some (.list items) := by
  cases s with
  | map kvs =>
      rw [sectionContent] at h
      cases hl : lookupKV kvs "content" with
      | none => rw [hl] at h; exact (Option.noConfusion h)
      | some v =>
          rw [hl] at h
          cases v with
          | list l =>
              injection h with h
              exact ⟨kvs, rfl, by rw [hl, h]⟩
          | str s2 => exact (Option.noConfusion h)
          | int n => exact (Option.noConfusion h)
          | bool b => exact (Option.noConfusion h)
          | null => exact (Option.noConfusion h)
          | map m => exact (Option.noConfusion h)
  | str s2 => exact (Option.noConfusion h)
  | int n => exact (Option.noConfusion h)
  | bool b => exact (Option.noConfusion h)
  | null => exact (Option.noConfusion h)
  | list l => exact (Option.noConfusion h)

/-- Eliminate a section check on a truthy section. -/
theorem wfSection_elim {entryOk : Yaml → Bool} {s : Yaml}
    (ht : s.truthy = true) (h : wfSection entryOk s = true) :
    ∃ kvs items, s = .map kvs ∧
      lookupKV kvs "content" = some (.list items) ∧
      ∀ x ∈ items, entryOk x = true := by
  rw [wfSection, if_pos ht] at h
  obtain ⟨items, hsc, hall⟩ := optListAll_elim h
  obtain ⟨kvs, rfl, hlk⟩ := sectionContent_elim hsc
  exact ⟨kvs, items, rfl, hlk, hall⟩

/-- Eliminate the education-content check. -/
theorem optEduOk_elim {config : Yaml} {o : Option (List Yaml)}
    (h : optEduOk config o = true) :
    ∃ items, o = some items ∧ eduItemsOk config items = true := by
  cases o with
  | some items => exact ⟨items, rfl, h⟩
  | none => exact (Bool.noConfusion h)

/-- Eliminate the leaked-variable constraints on education entries. -/
theorem eduItemsOk_elim {config : Yaml} {items : List Yaml}
    (h : eduItemsOk config items = true) :
    (lastLegacyWork config = none ∧ items = []) ∨
    (∃ w, lastLegacyWork config = some w ∧
      ∀ e ∈ items, wfEduEntry (! w.hasKey "present") e = true) := by
  rw [eduItemsOk] at h
  cases hlw : lastLegacyWork config with
  | none =>
      rw [hlw] at h
      have h2 : items.isEmpty = true := h
      exact Or.inl ⟨rfl, by simpa using h2⟩
  | some w =>
      rw [hlw] at h
      have h2 : items.all (wfEduEntry (! w.hasKey "present")) = true := h
      exact Or.inr ⟨w, rfl, fun e he => List.all_eq_true.mp h2 e he⟩

/-- A valid `PartialDate` has a derivable month string. -/
theorem get_month_from_ok_of_valid {d : Yaml}
    (h : validPartialDate d = true) : ∃ s, get_month_from d = .ok s := by
  cases d with
  | map kvs =>
      rw [validPartialDate] at h
      simp only [Bool.and_eq_true] at h
      rcases monthFieldOk_elim h.2 with hnone | ⟨s, i, hsome, hi⟩
      · exact ⟨"01", by rw [get_month_from, hnone]⟩
      · exact ⟨fmtMonth (i + 1), by
          simp [get_month_from, hsome, strptimeMonth, hi, Bind.bind,
            Except.bind, Pure.pure, Except.pure]⟩
  | str s => exact (Bool.noConfusion h)
  | int n => exact (Bool.noConfusion h)
  | bool b => exact (Bool.noConfusion h)
  | null => exact (Bool.noConfusion h)
  | list l => exact (Bool.noConfusion h)

/-- A valid `PartialDate` has a `year`. -/
theorem partialDate_year_ok {d : Yaml} (h : validPartialDate d = true) :
    ∃ y, d.getKey "year" = .ok y := by
  cases d with
  | map kvs =>
      rw [validPartialDate] at h
      simp only [Bool.and_eq_true] at h
      exact getKey_ok_of_find_isSome (y := .map kvs) h.1
  | str s => exact (Bool.noConfusion h)
  | int n => exact (Bool.noConfusion h)
  | bool b => exact (Bool.noConfusion h)
  | null => exact (Bool.noConfusion h)
  | list l => exact (Bool.noConfusion h)

/-- A loop whose body succeeds on every element succeeds. -/
theorem mapME_ok_of_all {α β : Type} {f : α → Except Err β} {l : List α}
    (h : ∀ x ∈ l, ∃ y, f x = .ok y) : ∃ ys, mapME f l = .ok ys := by
  induction l with
  | nil => exact ⟨[], rfl⟩
  | cons x xs ih =>
      obtain ⟨y, hy⟩ := h x (by simp)
      obtain ⟨ys, hys⟩ := ih (fun z hz => h z (by simp [hz]))
      exact ⟨y :: ys, by rw [mapME, hy, okBind, hys, okBind]; rfl⟩

/-- A well-formed skill category transforms. -/
theorem skillCatEntry_ok_of_wf {c : Yaml} (h : wfSkillCat c = true) :
    ∃ e, skillCatEntry c = .ok e := by
  cases c with
  | map kvs =>
      rw [wfSkillCat] at h
      simp only [Bool.and_eq_true] at h
      obtain ⟨ht, hc⟩ := h
      obtain ⟨title, htitle⟩ := Option.isSome_iff_exists.mp ht
      obtain ⟨items, hl, hnames0⟩ := namesOk_elim hc
      obtain ⟨names, hnames'⟩ := mapME_ok_of_all
        (fun x hx => getKey_ok_of_find_isSome (hnames0 x hx))
      rw [exceptIsOk_iff.symm]
      rw [skillCatEntry, getKey_map_eq htitle, okBind,
        getKey_map_eq hl, okBind, asList_list, okBind, hnames', okBind]
      rfl
  | str s => exact (Bool.noConfusion h)
  | int n => exact (Bool.noConfusion h)
  | bool b => exact (Bool.noConfusion h)
  | null => exact (Bool.noConfusion h)
  | list l => exact (Bool.noConfusion h)

/-- A well-formed job entry transforms. -/
theorem workEntry_ok_of_wf {w : Yaml} (h : wfWorkEntry w = true) :
    ∃ nw, workEntry w = .ok nw := by
  cases w with
  | map kvs =>
      rw [wfWorkEntry] at h
      simp only [Bool.and_eq_true] at h
      obtain ⟨⟨⟨⟨hfrom, hcomp⟩, htitle⟩, hdescr⟩, hto⟩ := h
      obtain ⟨fromD, hfl, hfromV⟩ := fieldIs_elim hfrom
      obtain ⟨fm, hfm⟩ := get_month_from_ok_of_valid hfromV
      obtain ⟨cv, hcv⟩ := Option.isSome_iff_exists.mp hcomp
      obtain ⟨tv, htv⟩ := Option.isSome_iff_exists.mp htitle
      obtain ⟨yv, hyv⟩ := partialDate_year_ok hfromV
      obtain ⟨dv, hdv⟩ := Option.isSome_iff_exists.mp hdescr
      rw [exceptIsOk_iff.symm]
      rw [workEntry, getKey_map_eq hfl, okBind, hfm, okBind,
        getKey_map_eq hcv, okBind, getKey_map_eq htv, okBind,
        hyv, okBind, getKey_map_eq hdv, okBind]
      by_cases hcond : (¬ (Yaml.map kvs).hasKey "present" = true ∧
          (Yaml.map kvs).hasKey "to" = true)
      · rw [if_pos hcond]
        have hpn : lookupKV kvs "present" = none :=
          Option.not_isSome_iff_eq_none.mp (fun hs => hcond.1 hs)
        obtain ⟨toD, htl⟩ := Option.isSome_iff_exists.mp
          (show (lookupKV kvs "to").isSome = true from hcond.2)
        rw [hpn, htl] at hto
        have htoV : validPartialDate toD = true := hto
        obtain ⟨tm, htm⟩ := get_month_from_ok_of_valid htoV
        obtain ⟨ty, hty⟩ := partialDate_year_ok htoV
        rw [getKey_map_eq htl, okBind, htm, okBind, hty, okBind]
        rfl
      · rw [if_neg hcond]
        rfl
  | str s => exact (Bool.noConfusion h)
  | int n => exact (Bool.noConfusion h)
  | bool b => exact (Bool.noConfusion h)
  | null => exact (Bool.noConfusion h)
  | list l => exact (Bool.noConfusion h)

/-- A list of well-formed job entries transforms. -/
theorem transformWorkList_ok_of_all {ws : List Yaml}
    (h : ∀ w ∈ ws, wfWorkEntry w = true) :
    ∃ outs, transformWorkList ws = .ok outs := by
  induction ws with
  | nil => exact ⟨[], rfl⟩
  | cons x xs ih =>
      obtain ⟨nw, hnw⟩ := workEntry_ok_of_wf (h x (by simp))
      obtain ⟨rest, hrest⟩ := ih (fun z hz => h z (by simp [hz]))
      exact ⟨nw :: rest,
        by rw [transformWorkList, hnw, okBind, hrest, okBind]; rfl⟩

/-- A well-formed education entry yields its `new_edu` fields. -/
theorem eduEntryBase_ok_of_wf {e : Yaml} {needsTo : Bool}
    (h : wfEduEntry needsTo e = true) : ∃ ne, eduEntryBase e = .ok ne := by
  cases e with
  | map kvs =>
      rw [wfEduEntry] at h
      simp only [Bool.and_eq_true] at h
      obtain ⟨⟨⟨hfrom, hcomp⟩, htitle⟩, -⟩ := h
      obtain ⟨fromD, hfl, hfromV⟩ := fieldIs_elim hfrom
      obtain ⟨fm, hfm⟩ := get_month_from_ok_of_valid hfromV
      obtain ⟨cv, hcv⟩ := Option.isSome_iff_exists.mp hcomp
      obtain ⟨tv, htv⟩ := Option.isSome_iff_exists.mp htitle
      obtain ⟨yv, hyv⟩ := partialDate_year_ok hfromV
      rw [exceptIsOk_iff.symm]
      rw [eduEntryBase, getKey_map_eq hfl, okBind, hfm, okBind,
        getKey_map_eq hcv, okBind, getKey_map_eq htv, okBind, okBind,
        hyv, okBind]
      rfl
  | str s => exact (Bool.noConfusion h)
  | int n => exact (Bool.noConfusion h)
  | bool b => exact (Bool.noConfusion h)
  | null => exact (Bool.noConfusion h)
  | list l => exact (Bool.noConfusion h)

/-- An education entry that must provide a `to` date yields the `endDate`
string. -/
theorem eduEndDate_ok_of_wf {e : Yaml} (h : wfEduEntry true e = true) :
    ∃ d, eduEndDate e = .ok d := by
  cases e with
  | map kvs =>
      rw [wfEduEntry] at h
      simp only [Bool.and_eq_true] at h
      obtain ⟨-, hto⟩ := h
      have hto' : fieldIs validPartialDate (lookupKV kvs "to") = true := hto
      obtain ⟨toD, htl, htoV⟩ := fieldIs_elim hto'
      obtain ⟨tm, htm⟩ := get_month_from_ok_of_valid htoV
      obtain ⟨ty, hty⟩ := partialDate_year_ok htoV
      rw [exceptIsOk_iff.symm]
      rw [eduEndDate, getKey_map_eq htl, okBind, htm, okBind, hty, okBind]
      rfl
  | str s => exact (Bool.noConfusion h)
  | int n => exact (Bool.noConfusion h)
  | bool b => exact (Bool.noConfusion h)
  | null => exact (Bool.noConfusion h)
  | list l => exact (Bool.noConfusion h)

/-- The education loop succeeds on well-formed entries once the job loop
ran. -/
theorem transformEduList_ok_of_all {w : Yaml} {es : List Yaml}
    (h : ∀ e ∈ es, wfEduEntry (! w.hasKey "present") e = true) :
    ∃ r, transformEduList (some w) es = .ok r := by
  induction es with
  | nil => exact ⟨([], none), rfl⟩
  | cons e es ih =>
      obtain ⟨ne, hne⟩ := eduEntryBase_ok_of_wf (h e (by simp))
      obtain ⟨⟨outs, patch⟩, hr⟩ := ih (fun z hz => h z (by simp [hz]))
      by_cases hw : w.hasKey "present" = true
      · refine ⟨(ne :: outs, patch), ?_⟩
        rw [transformEduList, hne, okBind, eduLastWork_some, okBind,
          if_pos hw, hr, okBind]
        rfl
      · have hw' : w.hasKey "present" = false := by
          cases hb : w.hasKey "present"
          · rfl
          · exact absurd hb hw
        have hn : (! w.hasKey "present") = true := by rw [hw']; rfl
        obtain ⟨d, hd⟩ := eduEndDate_ok_of_wf (hn ▸ h e (by simp))
        refine ⟨(ne :: outs, some (patch.getD d)), ?_⟩
        rw [transformEduList, hne, okBind, eduLastWork_some, okBind,
          if_neg hw, hd, okBind, hr, okBind]
        rfl

/-- A well-formed project entry transforms. -/
theorem projectEntry_ok_of_wf {p : Yaml} (h : wfProjectEntry p = true) :
    ∃ np, projectEntry p = .ok np := by
  cases p with
  | map kvs =>
      rw [wfProjectEntry] at h
      simp only [Bool.and_eq_true] at h
      obtain ⟨hname, hsk⟩ := h
      obtain ⟨nv, hnv⟩ := Option.isSome_iff_exists.mp hname
      obtain ⟨items, hsl, hnames0⟩ := namesOk_elim hsk
      obtain ⟨names, hnames'⟩ := mapME_ok_of_all
        (fun x hx => getKey_ok_of_find_isSome (hnames0 x hx))
      rw [exceptIsOk_iff.symm]
      rw [projectEntry, getKey_map_eq hnv, okBind]
      have hgd : (Yaml.map kvs).getD "description" (.str "") =
          .ok (match lookupKV kvs "description" with
               | some v => v
               | none => .str "") := by
        rw [Yaml.getD]
        cases lookupKV kvs "description" <;> rfl
      rw [hgd, okBind, getKey_map_eq hsl, okBind, asList_list, okBind,
        hnames', okBind]
      by_cases hu : (Yaml.map kvs).hasKey "url" = true
      · rw [if_pos hu]
        obtain ⟨uv, huv⟩ := Option.isSome_iff_exists.mp
          (show (lookupKV kvs "url").isSome = true from hu)
        rw [getKey_map_eq huv, okBind]
        rfl
      · rw [if_neg hu]
        rfl
  | str s => exact (Bool.noConfusion h)
  | int n => exact (Bool.noConfusion h)
  | bool b => exact (Bool.noConfusion h)
  | null => exact (Bool.noConfusion h)
  | list l => exact (Bool.noConfusion h)

/-- A well-formed skills section transforms. -/
theorem sectionSkills_ok_of_wf {s : Yaml}
    (h : wfSection wfSkillCat s = true) : ∃ sk, sectionSkills s = .ok sk := by
  by_cases ht : s.truthy = true
  · obtain ⟨kvs, items, rfl, hlk, hall⟩ := wfSection_elim ht h
    obtain ⟨outs, houts⟩ := mapME_ok_of_all
      (fun x hx => skillCatEntry_ok_of_wf (hall x hx))
    refine ⟨some ((Yaml.map kvs).hasKey "include_page_break", outs), ?_⟩
    rw [sectionSkills, if_pos ht, getKey_map_eq hlk, okBind,
      asList_list, okBind, houts, okBind]
    rfl
  · exact ⟨none, sectionSkills_falsy (by simpa using ht)⟩

/-- A well-formed job-experience section transforms. -/
theorem sectionWork_ok_of_wf {s : Yaml}
    (h : wfSection wfWorkEntry s = true) : ∃ wk, sectionWork s = .ok wk := by
  by_cases ht : s.truthy = true
  · obtain ⟨kvs, items, rfl, hlk, hall⟩ := wfSection_elim ht h
    obtain ⟨outs, houts⟩ := transformWorkList_ok_of_all hall
    refine ⟨some ((Yaml.map kvs).hasKey "include_page_break",
      outs, items.getLast?), ?_⟩
    rw [sectionWork, if_pos ht, getKey_map_eq hlk, okBind,
      asList_list, okBind, houts, okBind]
    rfl
  · exact ⟨none, sectionWork_falsy (by simpa using ht)⟩

/-- A well-formed projects section transforms. -/
theorem sectionProjects_ok_of_wf {s : Yaml}
    (h : wfSection wfProjectEntry s = true) :
    ∃ pj, sectionProjects s = .ok pj := by
  by_cases ht : s.truthy = true
  · obtain ⟨kvs, items, rfl, hlk, hall⟩ := wfSection_elim ht h
    obtain ⟨outs, houts⟩ := mapME_ok_of_all
      (fun x hx => projectEntry_ok_of_wf (hall x hx))
    refine ⟨some ((Yaml.map kvs).hasKey "include_page_break", outs), ?_⟩
    rw [sectionProjects, if_pos ht, getKey_map_eq hlk, okBind,
      asList_list, okBind, houts, okBind]
    rfl
  · exact ⟨none, sectionProjects_falsy (by simpa using ht)⟩

/-- A well-formed education section transforms (against the leaked last
job entry of the same document). -/
theorem sectionEdu_ok_of_wf {config s : Yaml}
    (h : wfEducationSection config s = true) :
    ∃ ed, sectionEdu s (lastLegacyWork config) = .ok ed := by
  by_cases ht : s.truthy = true
  · rw [wfEducationSection, if_pos ht] at h
    obtain ⟨items, hsc, hitems⟩ := optEduOk_elim h
    obtain ⟨kvs, rfl, hlk⟩ := sectionContent_elim hsc
    rcases eduItemsOk_elim hitems with ⟨hlw, rfl⟩ | ⟨w, hlw, hall⟩
    · refine ⟨some ((Yaml.map kvs).hasKey "include_page_break",
        [], none), ?_⟩
      rw [sectionEdu, if_pos ht, getKey_map_eq hlk, okBind, asList_list,
        okBind, hlw, transformEduList, okBind]
      rfl
    · obtain ⟨⟨outs, patch⟩, hr⟩ := transformEduList_ok_of_all (w := w) hall
      refine ⟨some ((Yaml.map kvs).hasKey "include_page_break",
        outs, patch), ?_⟩
      rw [sectionEdu, if_pos ht, getKey_map_eq hlk, okBind, asList_list,
        okBind, hlw, hr, okBind]
      rfl
  · exact ⟨none, sectionEdu_falsy _ (by simpa using ht)⟩

/-- The leaked `work` value the transformer passes to the education
section is exactly `lastLegacyWork`. -/
theorem lastWorkOf_eq {config jobSec : Yaml}
    {wk : Option (Bool × List Yaml × Option Yaml)}
    (hfind : config.find "job_experience" = some jobSec)
    (hwk : sectionWork jobSec = .ok wk) :
    lastWorkOf wk = lastLegacyWork config := by
  rcases sectionWork_elim hwk with ⟨hf, rfl⟩ | ⟨items, outs, ht, hc, htr, rfl⟩
  · rw [lastWorkOf, lastLegacyWork, hfind, lastFromSection,
      if_neg (by simp [hf])]
  · rw [lastWorkOf, lastLegacyWork, hfind, lastFromSection, if_pos ht, hc]

/-- Any well-formed document transforms successfully. -/
theorem transform_ok_of_wf {config : Yaml} (h : wfConfig config = true) :
    ∃ out, from_resumy_to_jsonschema config = .ok out := by
  cases config with
  | map kvs =>
      rw [wfConfig] at h
      simp only [Bool.and_eq_true] at h
      obtain ⟨⟨⟨⟨hprof, hsk⟩, hjob⟩, hedu⟩, hproj⟩ := h
      cases hpl : lookupKV kvs "profile" with
      | none => rw [hpl] at hprof; exact (Bool.noConfusion hprof)
      | some p =>
      rw [hpl] at hprof
      cases hsl : lookupKV kvs "skills" with
      | none => rw [hsl] at hsk; exact (Bool.noConfusion hsk)
      | some sv =>
      rw [hsl] at hsk
      cases hjl : lookupKV kvs "job_experience" with
      | none => rw [hjl] at hjob; exact (Bool.noConfusion hjob)
      | some jv =>
      rw [hjl] at hjob
      cases hel : lookupKV kvs "education" with
      | none => rw [hel] at hedu; exact (Bool.noConfusion hedu)
      | some ev =>
      rw [hel] at hedu
      cases hql : lookupKV kvs "projects" with
      | none => rw [hql] at hproj; exact (Bool.noConfusion hproj)
      | some qv =>
      rw [hql] at hproj
      obtain ⟨basics, hb⟩ := mkBasics_ok_of_wf hprof
      obtain ⟨sk, hsk'⟩ := sectionSkills_ok_of_wf hsk
      obtain ⟨wk, hwk'⟩ := sectionWork_ok_of_wf hjob
      have hlwk : lastWorkOf wk = lastLegacyWork (Yaml.map kvs) :=
        lastWorkOf_eq (by rw [Yaml.find]; exact hjl) hwk'
      obtain ⟨ed, hed'⟩ := @sectionEdu_ok_of_wf (.map kvs) _ hedu
      obtain ⟨pj, hpj'⟩ := sectionProjects_ok_of_wf hproj
      refine ⟨assemble basics sk wk ed pj, ?_⟩
      rw [from_resumy_to_jsonschema, getKey_map_eq hpl, okBind, hb, okBind,
        getKey_map_eq hsl, okBind, hsk', okBind,
        getKey_map_eq hjl, okBind, hwk', okBind,
        getKey_map_eq hel, okBind, hlwk, hed', okBind,
        getKey_map_eq hql, okBind, hpj', okBind]
      rfl
  | str s => exact (Bool.noConfusion h)
  | int n => exact (Bool.noConfusion h)
  | bool b => exact (Bool.noConfusion h)
  | null => exact (Bool.noConfusion h)
  | list l => exact (Bool.noConfusion h)

/-! ## C1: totality of the transformer -/

/-- C1 (amended): the transformer is deterministic (it is a function of its
input) and returns a canonical document without raising on every document
that is well-formed in the *code's* sense — which, unlike the spec's
dialect, requires all four optional section keys to be present (`wfConfig`)
— and fails with a `KeyError` (the spec's `MissingFieldError`) on the
`profile` key when the profile section is absent. -/
theorem transform_total_spec {config : Yaml} :
    (wfConfig config = true →
      (from_resumy_to_jsonschema config).isOk = true) ∧
    (∀ kvs, config = .map kvs → lookupKV kvs "profile" = none →
      from_resumy_to_jsonschema config = .error (.keyError "profile")) := by
  constructor
  · intro h
    obtain ⟨out, hout⟩ := transform_ok_of_wf h
    rw [hout]
    rfl
  · intro kvs hc hl
    subst hc
    rw [from_resumy_to_jsonschema, getKey_map_none hl, errBind]

/-- Witness for `transform_total_spec`: `exampleMinimalConfig` is
well-formed and transforms; the empty mapping lacks `profile` and raises. -/
theorem transform_total_spec_witness :
    (from_resumy_to_jsonschema exampleMinimalConfig).isOk = true ∧
    from_resumy_to_jsonschema (.map []) = .error (.keyError "profile") :=
  ⟨(@transform_total_spec exampleMinimalConfig).1 rfl,
   (@transform_total_spec (.map [])).2 [] rfl rfl⟩

/-! ## C5: exit-code conversion at the handler boundary -/

/-- C5 (amended): exit codes are produced only where the handlers install
`except` clauses.  `cmd_build` converts `ValidationError` to 2 and
`IOError` to its errno around load/validate, converts `IOError` to its
errno around rendering, and returns 0 on success; `cmd_validate` and
`cmd_normalize` convert only `ValidationError` (to 2) and return 0 on
success, while an `IOError` — e.g. a missing config file — escapes them
uncaught, as do transform errors. -/
theorem handler_exit_codes (n : Int) (cfg out : Yaml) (env : MetaEnv)
    (args0 : Args) (val render wr : Yaml → Except Err Unit) :
    (cmd_build (.error .validationError) val false env args0 render
      = .ok 2) ∧
    (cmd_build (.error (.ioError n)) val false env args0 render = .ok n) ∧
    (∀ a1, val cfg = .ok () → normalize_args env args0 cfg = .ok a1 →
      isLegacyVersion cfg = false → render cfg = .ok () →
      cmd_build (.ok cfg) val false env args0 render = .ok 0) ∧
    (∀ a1, val cfg = .ok () → normalize_args env args0 cfg = .ok a1 →
      isLegacyVersion cfg = false → render cfg = .error (.ioError n) →
      cmd_build (.ok cfg) val false env args0 render = .ok n) ∧
    (cmd_validate (.error .validationError) val = .ok 2) ∧
    (val cfg = .ok () → cmd_validate (.ok cfg) val = .ok 0) ∧
    (cmd_validate (.error (.ioError n)) val = .error (.ioError n)) ∧
    (cmd_normalize (.error .validationError) val wr = .ok 2) ∧
    (cmd_normalize (.error (.ioError n)) val wr = .error (.ioError n)) ∧
    (val cfg = .ok () → from_resumy_to_jsonschema cfg = .ok out →
      wr out = .ok () → cmd_normalize (.ok cfg) val wr = .ok 0) := by
  refine ⟨rfl, rfl, ?_, ?_, rfl, ?_, rfl, rfl, rfl, ?_⟩
  · intro a1 hval hnorm hleg hrender
    simp [cmd_build, hval, hnorm, hleg, hrender, Bind.bind, Except.bind,
      Pure.pure, Except.pure]
  · intro a1 hval hnorm hleg hrender
    simp [cmd_build, hval, hnorm, hleg, hrender, Bind.bind, Except.bind,
      Pure.pure, Except.pure]
  · intro hval
    simp [cmd_validate, hval, Bind.bind, Except.bind]
  · intro hval htrans hwr
    simp [cmd_normalize, hval, htrans, hwr, Bind.bind, Except.bind,
      Pure.pure, Except.pure]

/-- Witness for `handler_exit_codes`: all three handlers exit 0 on a fully
successful pipeline over `exampleMinimalConfig`. -/
theorem handler_exit_codes_witness :
    cmd_build (.ok exampleMinimalConfig) (fun _ => .ok ()) false
      ⟨"2024-01-01", none⟩ ⟨false, none, none, [], none, none, "out.pdf"⟩
      (fun _ => .ok ()) = .ok 0 ∧
    cmd_validate (.ok exampleMinimalConfig) (fun _ => .ok ()) = .ok 0 ∧
    cmd_normalize (.ok exampleMinimalConfig) (fun _ => .ok ())
      (fun _ => .ok ()) = .ok 0 := by
  have h := handler_exit_codes 2 exampleMinimalConfig exampleMinimalOut
    ⟨"2024-01-01", none⟩ ⟨false, none, none, [], none, none, "out.pdf"⟩
    (fun _ => .ok ()) (fun _ => .ok ()) (fun _ => .ok ())
  exact ⟨h.2.2.1 ⟨false, none, none, [], none, none, "out.pdf"⟩
      rfl rfl rfl rfl,
    h.2.2.2.2.2.1 rfl,
    h.2.2.2.2.2.2.2.2.2 rfl rfl rfl⟩

/-! ## C6: the transformer never mutates its input -/

/-- Heap evolution that can only append cells and mutate cells at index
`n` or above: every cell below `n` keeps its value. -/
def framesBelow (n : Nat) (h h' : Heap) : Prop :=
  h.length ≤ h'.length ∧ ∀ i, i < n → h'[i]? = h[i]?

theorem framesBelow_refl (n : Nat) (h : Heap) : framesBelow n h h :=
  ⟨le_rfl, fun _ _ => rfl⟩

theorem framesBelow_trans {n : Nat} {h1 h2 h3 : Heap}
    (a : framesBelow n h1 h2) (b : framesBelow n h2 h3) :
    framesBelow n h1 h3 :=
  ⟨le_trans a.1 b.1, fun i hi => (b.2 i hi).trans (a.2 i hi)⟩

/-- Allocation appends a cell; existing cells keep their values. -/
theorem alloc_framesBelow {n : Nat} {h : Heap} (v : HVal)
    (hn : n ≤ h.length) : framesBelow n h (h ++ [v]) := by
  refine ⟨by simp, fun i hi => ?_⟩
  exact List.getElem?_append_left (by omega)

/-- A successful `d[k] = v` mutates only the cell behind `r`. -/
theorem setKeyH_framesBelow {n : Nat} {h h' : Heap} {r : Nat} {k : String}
    {vr : Nat} (hr : n ≤ r) (hok : setKeyH h r k vr = .ok h') :
    framesBelow n h h' := by
  rw [setKeyH] at hok
  obtain ⟨c, hc, hok⟩ := exceptBind_ok hok
  cases c with
  | dict kvs =>
      injection hok with hok
      subst hok
      exact ⟨by simp, fun i hi => List.getElem?_set_ne (by omega)⟩
  | str s => exact (Except.noConfusion hok)
  | int m => exact (Except.noConfusion hok)
  | bool b => exact (Except.noConfusion hok)
  | null => exact (Except.noConfusion hok)
  | arr rs => exact (Except.noConfusion hok)

/-- A successful `l.append(v)` mutates only the cell behind `r`. -/
theorem appendH_framesBelow {n : Nat} {h h' : Heap} {r : Nat} {vr : Nat}
    (hr : n ≤ r) (hok : appendH h r vr = .ok h') : framesBelow n h h' := by
  rw [appendH] at hok
  obtain ⟨c, hc, hok⟩ := exceptBind_ok hok
  cases c with
  | arr rs =>
      injection hok with hok
      subst hok
      exact ⟨by simp, fun i hi => List.getElem?_set_ne (by omega)⟩
  | str s => exact (Except.noConfusion hok)
  | int m => exact (Except.noConfusion hok)
  | bool b => exact (Except.noConfusion hok)
  | null => exact (Except.noConfusion hok)
  | dict kvs => exact (Except.noConfusion hok)

/-- The skills loop only mutates the skills array and its own fresh
cells. -/
theorem skillsLoopH_frames {n skArr : Nat} (harr : n ≤ skArr) :
    ∀ {items : List Nat} {h h' : Heap}, n ≤ h.length →
    skillsLoopH skArr h items = .ok h' → framesBelow n h h' := by
  intro items
  induction items with
  | nil =>
      intro h h' hn hok
      rw [skillsLoopH] at hok
      injection hok with hok
      subst hok
      exact framesBelow_refl n h
  | cons c rest ih =>
      intro h h' hn hok
      rw [skillsLoopH] at hok
      obtain ⟨titleR, _, hok⟩ := exceptBind_ok hok
      obtain ⟨contentR, _, hok⟩ := exceptBind_ok hok
      obtain ⟨items2, _, hok⟩ := exceptBind_ok hok
      obtain ⟨names, _, hok⟩ := exceptBind_ok hok
      obtain ⟨h3, happ, hok⟩ := exceptBind_ok hok
      have f1 : framesBelow n h (h ++ [.arr names]) :=
        alloc_framesBelow _ hn
      have f2 : framesBelow n (h ++ [.arr names])
          ((h ++ [.arr names]) ++
            [.dict [("name", titleR), ("keywords", (alloc h (.arr names)).1)]]) :=
        alloc_framesBelow _ (le_trans hn f1.1)
      have f12 := framesBelow_trans f1 f2
      have f3 : framesBelow n _ h3 := appendH_framesBelow harr happ
      have f123 := framesBelow_trans f12 f3
      have f4 := ih (le_trans hn f123.1) hok
      exact framesBelow_trans f123 f4

/-- The work loop's `endDate` conditional only mutates the `new_work`
cell. -/
theorem workEndDateH_frames {n : Nat} {h2 h3 : Heap} {wr nw : Nat}
    (hnw : n ≤ nw) (hn : n ≤ h2.length)
    (hok : workEndDateH h2 wr nw = .ok h3) : framesBelow n h2 h3 := by
  rw [workEndDateH] at hok
  split at hok
  · obtain ⟨toR, _, hok⟩ := exceptBind_ok hok
    obtain ⟨toMonth, _, hok⟩ := exceptBind_ok hok
    obtain ⟨toYearR, _, hok⟩ := exceptBind_ok hok
    obtain ⟨toYearS, _, hok⟩ := exceptBind_ok hok
    refine framesBelow_trans
      (alloc_framesBelow (.str (toYearS ++ "-" ++ toMonth ++ "-01")) hn) ?_
    exact setKeyH_framesBelow hnw hok
  · injection hok with hok
    subst hok
    exact framesBelow_refl n h2

/-- The education loop's buggy conditional only mutates the leaked
`new_work` cell. -/
theorem eduEndDateH_frames {n : Nat} {h2 h3 : Heap} {er : Nat}
    {wnw : Nat × Nat} (hnw : n ≤ wnw.2) (hn : n ≤ h2.length)
    (hok : eduEndDateH h2 er wnw = .ok h3) : framesBelow n h2 h3 := by
  rw [eduEndDateH] at hok
  split at hok
  · injection hok with hok
    subst hok
    exact framesBelow_refl n h2
  · obtain ⟨toR, _, hok⟩ := exceptBind_ok hok
    obtain ⟨toMonth, _, hok⟩ := exceptBind_ok hok
    obtain ⟨toYearR, _, hok⟩ := exceptBind_ok hok
    obtain ⟨toYearS, _, hok⟩ := exceptBind_ok hok
    refine framesBelow_trans
      (alloc_framesBelow (.str (toYearS ++ "-" ++ toMonth ++ "-01")) hn) ?_
    exact setKeyH_framesBelow hnw hok

/-- The projects loop's `url` conditional only mutates the `new_project`
cell. -/
theorem projUrlH_frames {n : Nat} {h2 h3 : Heap} {pr np : Nat}
    (hnp : n ≤ np) (hok : projUrlH h2 pr np = .ok h3) :
    framesBelow n h2 h3 := by
  rw [projUrlH] at hok
  split at hok
  · obtain ⟨u, _, hok⟩ := exceptBind_ok hok
    exact setKeyH_framesBelow hnp hok
  · injection hok with hok
    subst hok
    exact framesBelow_refl n h2

/-- The page-break block only mutates the `breaks_before` cell. -/
theorem breakFlagH_frames {n : Nat} {h h' : Heap} {sec bbRef : Nat}
    {name : String} (hbb : n ≤ bbRef) (hn : n ≤ h.length)
    (hok : breakFlagH h sec bbRef name = .ok h') : framesBelow n h h' := by
  rw [breakFlagH] at hok
  split at hok
  · refine framesBelow_trans (alloc_framesBelow (.bool true) hn) ?_
    exact setKeyH_framesBelow hbb hok
  · injection hok with hok
    subst hok
    exact framesBelow_refl n h

/-- The location block only mutates the `basics` cell. -/
theorem locationBlockH_frames {n : Nat} {h h' : Heap}
    {basicsRef cityR countryR : Nat} {ct cn : Bool} (hb : n ≤ basicsRef)
    (hn : n ≤ h.length)
    (hok : locationBlockH h basicsRef cityR countryR ct cn = .ok h') :
    framesBelow n h h' := by
  rw [locationBlockH] at hok
  split at hok
  · refine framesBelow_trans
      (alloc_framesBelow (.dict [("city", cityR), ("countryCode", countryR)])
        hn) ?_
    exact setKeyH_framesBelow hb hok
  · injection hok with hok
    subst hok
    exact framesBelow_refl n h

/-- A social-profile block only mutates the `profiles` cell. -/
theorem profileEntryBlockH_frames {n : Nat} {h h' : Heap}
    {profilesRef userR : Nat} {network urlBase : String} {t : Bool}
    (hp : n ≤ profilesRef) (hn : n ≤ h.length)
    (hok : profileEntryBlockH h profilesRef userR network urlBase t
      = .ok h') : framesBelow n h h' := by
  rw [profileEntryBlockH] at hok
  split at hok
  · obtain ⟨s, _, hok⟩ := exceptBind_ok hok
    have f1 : framesBelow n h (h ++ [.str network]) :=
      alloc_framesBelow _ hn
    have f2 : framesBelow n _ _ :=
      alloc_framesBelow (h := h ++ [.str network])
        (.str (urlBase ++ s)) (le_trans hn f1.1)
    have f12 := framesBelow_trans f1 f2
    have f3 : framesBelow n _ _ :=
      alloc_framesBelow (h := (h ++ [.str network]) ++ [.str (urlBase ++ s)])
        (.dict [("network", (alloc h (.str network)).1),
          ("username", userR),
          ("url", (alloc (h ++ [.str network]) (.str (urlBase ++ s))).1)])
        (le_trans hn f12.1)
    have f123 := framesBelow_trans f12 f3
    exact framesBelow_trans f123 (appendH_framesBelow hp hok)
  · injection hok with hok
    subst hok
    exact framesBelow_refl n h

/-- The work loop only mutates the work array and its own fresh cells, and
leaves `new_work` bound to a fresh cell. -/
theorem workLoopH_frames {n workArr : Nat} (harr : n ≤ workArr) :
    ∀ {items : List Nat} {h h' : Heap} {last last' : Option (Nat × Nat)},
    n ≤ h.length →
    workLoopH workArr h items last = .ok (h', last') →
    framesBelow n h h' ∧
      (last' = last ∨ ∃ wr nw, last' = some (wr, nw) ∧ n ≤ nw) := by
  intro items
  induction items with
  | nil =>
      intro h h' last last' hn hok
      rw [workLoopH] at hok
      injection hok with hok
      injection hok with hok1 hok2
      subst hok1
      subst hok2
      exact ⟨framesBelow_refl n h, Or.inl rfl⟩
  | cons wr rest ih =>
      intro h h' last last' hn hok
      rw [workLoopH] at hok
      obtain ⟨fromR, _, hok⟩ := exceptBind_ok hok
      obtain ⟨fromMonth, _, hok⟩ := exceptBind_ok hok
      obtain ⟨companyR, _, hok⟩ := exceptBind_ok hok
      obtain ⟨titleR, _, hok⟩ := exceptBind_ok hok
      obtain ⟨yearR, _, hok⟩ := exceptBind_ok hok
      obtain ⟨yearS, _, hok⟩ := exceptBind_ok hok
      obtain ⟨descrR, _, hok⟩ := exceptBind_ok hok
      obtain ⟨h3, hif, hok⟩ := exceptBind_ok hok
      obtain ⟨h4, happ, hok⟩ := exceptBind_ok hok
      have f1 : framesBelow n h
          (h ++ [.str (yearS ++ "-" ++ fromMonth ++ "-01")]) :=
        alloc_framesBelow _ hn
      have f2 : framesBelow n _ _ :=
        alloc_framesBelow
          (h := h ++ [.str (yearS ++ "-" ++ fromMonth ++ "-01")])
          (.dict [("name", companyR), ("position", titleR),
            ("startDate",
              (alloc h (.str (yearS ++ "-" ++ fromMonth ++ "-01"))).1),
            ("highlights", descrR)]) (le_trans hn f1.1)
      have f12 := framesBelow_trans f1 f2
      have fif : framesBelow n _ h3 :=
        workEndDateH_frames (le_trans hn f1.1) (le_trans hn f12.1) hif
      have f123 := framesBelow_trans f12 fif
      have f4 : framesBelow n h3 h4 := appendH_framesBelow harr happ
      have f1234 := framesBelow_trans f123 f4
      obtain ⟨f5, hlast⟩ := ih (le_trans hn f1234.1) hok
      refine ⟨framesBelow_trans f1234 f5, ?_⟩
      rcases hlast with rfl | ⟨wr2, nw2, rfl, hge⟩
      · exact Or.inr ⟨wr, _, rfl, le_trans hn f1.1⟩
      · exact Or.inr ⟨wr2, nw2, rfl, hge⟩

/-- The education loop only mutates the education array, the leaked
`new_work` cell, and its own fresh cells. -/
theorem eduLoopH_frames {n eduArr : Nat} {lastNW : Option (Nat × Nat)}
    (harr : n ≤ eduArr)
    (hnw : ∀ wr nw, lastNW = some (wr, nw) → n ≤ nw) :
    ∀ {items : List Nat} {h h' : Heap}, n ≤ h.length →
    eduLoopH eduArr lastNW h items = .ok h' → framesBelow n h h' := by
  intro items
  induction items with
  | nil =>
      intro h h' hn hok
      rw [eduLoopH] at hok
      injection hok with hok
      subst hok
      exact framesBelow_refl n h
  | cons er rest ih =>
      intro h h' hn hok
      rw [eduLoopH] at hok
      obtain ⟨fromR, _, hok⟩ := exceptBind_ok hok
      obtain ⟨fromMonth, _, hok⟩ := exceptBind_ok hok
      obtain ⟨companyR, _, hok⟩ := exceptBind_ok hok
      obtain ⟨titleR, _, hok⟩ := exceptBind_ok hok
      obtain ⟨yearR, _, hok⟩ := exceptBind_ok hok
      obtain ⟨yearS, _, hok⟩ := exceptBind_ok hok
      obtain ⟨wnw, hguard, hok⟩ := exceptBind_ok hok
      obtain ⟨h3, hif, hok⟩ := exceptBind_ok hok
      obtain ⟨h4, happ, hok⟩ := exceptBind_ok hok
      have hlast : lastNW = some wnw := by
        cases lastNW with
        | some p => injection hguard with hguard; rw [hguard]
        | none => exact (Except.noConfusion hguard)
      have f1 : framesBelow n h
          (h ++ [.str (yearS ++ "-" ++ fromMonth ++ "-01")]) :=
        alloc_framesBelow _ hn
      have f2 : framesBelow n _ _ :=
        alloc_framesBelow
          (h := h ++ [.str (yearS ++ "-" ++ fromMonth ++ "-01")])
          (.dict [("institution", companyR), ("area", titleR),
            ("startDate",
              (alloc h (.str (yearS ++ "-" ++ fromMonth ++ "-01"))).1)])
          (le_trans hn f1.1)
      have f12 := framesBelow_trans f1 f2
      have fif : framesBelow n _ h3 :=
        eduEndDateH_frames (hnw wnw.1 wnw.2 (by rw [hlast]))
          (le_trans hn f12.1) hif
      have f123 := framesBelow_trans f12 fif
      have f4 : framesBelow n h3 h4 := appendH_framesBelow harr happ
      have f1234 := framesBelow_trans f123 f4
      exact framesBelow_trans f1234 (ih (le_trans hn f1234.1) hok)

/-- The projects loop only mutates the projects array and its own fresh
cells. -/
theorem projLoopH_frames {n projArr : Nat} (harr : n ≤ projArr) :
    ∀ {items : List Nat} {h h' : Heap}, n ≤ h.length →
    projLoopH projArr h items = .ok h' → framesBelow n h h' := by
  intro items
  induction items with
  | nil =>
      intro h h' hn hok
      rw [projLoopH] at hok
      injection hok with hok
      subst hok
      exact framesBelow_refl n h
  | cons pr rest ih =>
      intro h h' hn hok
      rw [projLoopH] at hok
      obtain ⟨nameR, _, hok⟩ := exceptBind_ok hok
      obtain ⟨descrR, _, hok⟩ := exceptBind_ok hok
      obtain ⟨skillsR, _, hok⟩ := exceptBind_ok hok
      obtain ⟨items2, _, hok⟩ := exceptBind_ok hok
      obtain ⟨names, _, hok⟩ := exceptBind_ok hok
      obtain ⟨h3, hif, hok⟩ := exceptBind_ok hok
      obtain ⟨h4, happ, hok⟩ := exceptBind_ok hok
      have f0 : framesBelow n h (h ++ [.str ""]) := alloc_framesBelow _ hn
      have f1 : framesBelow n _ _ :=
        alloc_framesBelow (h := h ++ [.str ""]) (.arr names)
          (le_trans hn f0.1)
      have f01 := framesBelow_trans f0 f1
      have f2 : framesBelow n _ _ :=
        alloc_framesBelow (h := (h ++ [.str ""]) ++ [.arr names])
          (.dict [("name", nameR), ("description", descrR),
            ("keywords", (alloc (h ++ [.str ""]) (.arr names)).1)])
          (le_trans hn f01.1)
      have f012 := framesBelow_trans f01 f2
      have fif : framesBelow n _ h3 :=
        projUrlH_frames (le_trans hn f01.1) hif
      have f0123 := framesBelow_trans f012 fif
      have f4 : framesBelow n h3 h4 := appendH_framesBelow harr happ
      have f01234 := framesBelow_trans f0123 f4
      exact framesBelow_trans f01234 (ih (le_trans hn f01234.1) hok)

/-- The skills section only mutates `breaks_before`, `new_config`, and
fresh cells. -/
theorem skillsSectionH_frames {n : Nat} {h h' : Heap}
    {config ncRef bbRef : Nat} (hnc : n ≤ ncRef) (hbb : n ≤ bbRef)
    (hn : n ≤ h.length)
    (hok : skillsSectionH h config ncRef bbRef = .ok h') :
    framesBelow n h h' := by
  rw [skillsSectionH] at hok
  obtain ⟨skillsSec, _, hok⟩ := exceptBind_ok hok
  obtain ⟨t, _, hok⟩ := exceptBind_ok hok
  split at hok
  · obtain ⟨h1, hbr, hok⟩ := exceptBind_ok hok
    obtain ⟨h3, hset, hok⟩ := exceptBind_ok hok
    obtain ⟨contentR, _, hok⟩ := exceptBind_ok hok
    obtain ⟨items, _, hok⟩ := exceptBind_ok hok
    have f1 : framesBelow n h h1 := breakFlagH_frames hbb hn hbr
    have f2 : framesBelow n h1 (h1 ++ [.arr []]) :=
      alloc_framesBelow _ (le_trans hn f1.1)
    have f12 := framesBelow_trans f1 f2
    have f3 : framesBelow n _ h3 := setKeyH_framesBelow hnc hset
    have f123 := framesBelow_trans f12 f3
    have f4 : framesBelow n h3 h' :=
      skillsLoopH_frames (le_trans hn f1.1) (le_trans hn f123.1) hok
    exact framesBelow_trans f123 f4
  · injection hok with hok
    subst hok
    exact framesBelow_refl n h

/-- The job-experience section only mutates `breaks_before`, `new_config`,
and fresh cells, and leaves `new_work` bound to a fresh cell. -/
theorem workSectionH_frames {n : Nat} {h h' : Heap}
    {config ncRef bbRef : Nat} {lastNW : Option (Nat × Nat)}
    (hnc : n ≤ ncRef) (hbb : n ≤ bbRef) (hn : n ≤ h.length)
    (hok : workSectionH h config ncRef bbRef = .ok (h', lastNW)) :
    framesBelow n h h' ∧ ∀ wr nw, lastNW = some (wr, nw) → n ≤ nw := by
  rw [workSectionH] at hok
  obtain ⟨jobSec, _, hok⟩ := exceptBind_ok hok
  obtain ⟨t, _, hok⟩ := exceptBind_ok hok
  split at hok
  · obtain ⟨h1, hbr, hok⟩ := exceptBind_ok hok
    obtain ⟨h3, hset, hok⟩ := exceptBind_ok hok
    obtain ⟨contentR, _, hok⟩ := exceptBind_ok hok
    obtain ⟨items, _, hok⟩ := exceptBind_ok hok
    have f1 : framesBelow n h h1 := breakFlagH_frames hbb hn hbr
    have f2 : framesBelow n h1 (h1 ++ [.arr []]) :=
      alloc_framesBelow _ (le_trans hn f1.1)
    have f12 := framesBelow_trans f1 f2
    have f3 : framesBelow n _ h3 := setKeyH_framesBelow hnc hset
    have f123 := framesBelow_trans f12 f3
    obtain ⟨f4, hlast⟩ :=
      workLoopH_frames (le_trans hn f1.1) (le_trans hn f123.1) hok
    refine ⟨framesBelow_trans f123 f4, ?_⟩
    intro wr nw hl
    rcases hlast with h0 | ⟨wr2, nw2, heq, hge⟩
    · rw [h0] at hl
      exact (Option.noConfusion hl)
    · rw [heq] at hl
      injection hl with hl
      injection hl with hl1 hl2
      rw [hl2] at hge
      exact hge
  · injection hok with hok
    injection hok with hok1 hok2
    subst hok1
    subst hok2
    refine ⟨framesBelow_refl n h, ?_⟩
    intro wr nw hl
    exact (Option.noConfusion hl)

/-- The education section only mutates `breaks_before`, `new_config`, the
leaked `new_work` cell, and fresh cells. -/
theorem eduSectionH_frames {n : Nat} {h h' : Heap}
    {config ncRef bbRef : Nat} {lastNW : Option (Nat × Nat)}
    (hnc : n ≤ ncRef) (hbb : n ≤ bbRef)
    (hnw : ∀ wr nw, lastNW = some (wr, nw) → n ≤ nw) (hn : n ≤ h.length)
    (hok : eduSectionH h config ncRef bbRef lastNW = .ok h') :
    framesBelow n h h' := by
  rw [eduSectionH] at hok
  obtain ⟨eduSec, _, hok⟩ := exceptBind_ok hok
  obtain ⟨t, _, hok⟩ := exceptBind_ok hok
  split at hok
  · obtain ⟨h1, hbr, hok⟩ := exceptBind_ok hok
    obtain ⟨h3, hset, hok⟩ := exceptBind_ok hok
    obtain ⟨contentR, _, hok⟩ := exceptBind_ok hok
    obtain ⟨items, _, hok⟩ := exceptBind_ok hok
    have f1 : framesBelow n h h1 := breakFlagH_frames hbb hn hbr
    have f2 : framesBelow n h1 (h1 ++ [.arr []]) :=
      alloc_framesBelow _ (le_trans hn f1.1)
    have f12 := framesBelow_trans f1 f2
    have f3 : framesBelow n _ h3 := setKeyH_framesBelow hnc hset
    have f123 := framesBelow_trans f12 f3
    have f4 : framesBelow n h3 h' :=
      eduLoopH_frames (le_trans hn f1.1) hnw (le_trans hn f123.1) hok
    exact framesBelow_trans f123 f4
  · injection hok with hok
    subst hok
    exact framesBelow_refl n h

/-- The projects section only mutates `breaks_before`, `new_config`, and
fresh cells. -/
theorem projSectionH_frames {n : Nat} {h h' : Heap}
    {config ncRef bbRef : Nat} (hnc : n ≤ ncRef) (hbb : n ≤ bbRef)
    (hn : n ≤ h.length)
    (hok : projSectionH h config ncRef bbRef = .ok h') :
    framesBelow n h h' := by
  rw [projSectionH] at hok
  obtain ⟨projSec, _, hok⟩ := exceptBind_ok hok
  obtain ⟨t, _, hok⟩ := exceptBind_ok hok
  split at hok
  · obtain ⟨h1, hbr, hok⟩ := exceptBind_ok hok
    obtain ⟨h3, hset, hok⟩ := exceptBind_ok hok
    obtain ⟨contentR, _, hok⟩ := exceptBind_ok hok
    obtain ⟨items, _, hok⟩ := exceptBind_ok hok
    have f1 : framesBelow n h h1 := breakFlagH_frames hbb hn hbr
    have f2 : framesBelow n h1 (h1 ++ [.arr []]) :=
      alloc_framesBelow _ (le_trans hn f1.1)
    have f12 := framesBelow_trans f1 f2
    have f3 : framesBelow n _ h3 := setKeyH_framesBelow hnc hset
    have f123 := framesBelow_trans f12 f3
    have f4 : framesBelow n h3 h' :=
      projLoopH_frames (le_trans hn f1.1) (le_trans hn f123.1) hok
    exact framesBelow_trans f123 f4
  · injection hok with hok
    subst hok
    exact framesBelow_refl n h

/-- C6: the transformer never mutates its input.  In the heap embedding,
every cell that exists before the call — in particular every mapping,
sequence and scalar of the input document — holds exactly the same value
in the final heap: the function only allocates fresh cells and mutates
those. -/
theorem transform_never_mutates_input {h : Heap} {config out : Nat}
    {hFinal : Heap}
    (hok : from_resumy_to_jsonschema_heap h config = .ok (out, hFinal)) :
    ∀ i, i < h.length → hFinal[i]? = h[i]? := by
  rw [from_resumy_to_jsonschema_heap] at hok
  obtain ⟨profile, _, hok⟩ := exceptBind_ok hok
  obtain ⟨fnR, _, hok⟩ := exceptBind_ok hok
  obtain ⟨fnS, _, hok⟩ := exceptBind_ok hok
  obtain ⟨lnR, _, hok⟩ := exceptBind_ok hok
  obtain ⟨lnS, _, hok⟩ := exceptBind_ok hok
  obtain ⟨emailR, _, hok⟩ := exceptBind_ok hok
  obtain ⟨phoneR, _, hok⟩ := exceptBind_ok hok
  obtain ⟨urlR, _, hok⟩ := exceptBind_ok hok
  obtain ⟨cityR, _, hok⟩ := exceptBind_ok hok
  obtain ⟨ct, _, hok⟩ := exceptBind_ok hok
  obtain ⟨countryR, _, hok⟩ := exceptBind_ok hok
  obtain ⟨cn, _, hok⟩ := exceptBind_ok hok
  obtain ⟨h7, hloc, hok⟩ := exceptBind_ok hok
  obtain ⟨ghR, _, hok⟩ := exceptBind_ok hok
  obtain ⟨ghT, _, hok⟩ := exceptBind_ok hok
  obtain ⟨h8, hgh, hok⟩ := exceptBind_ok hok
  obtain ⟨liR, _, hok⟩ := exceptBind_ok hok
  obtain ⟨liT, _, hok⟩ := exceptBind_ok hok
  obtain ⟨h9, hli, hok⟩ := exceptBind_ok hok
  obtain ⟨h10, hsk, hok⟩ := exceptBind_ok hok
  obtain ⟨hw, hwk, hok⟩ := exceptBind_ok hok
  obtain ⟨h11, lastNW⟩ := hw
  obtain ⟨h12, hed, hok⟩ := exceptBind_ok hok
  obtain ⟨h13, hpj, hok⟩ := exceptBind_ok hok
  simp only [Pure.pure, Except.pure, Except.ok.injEq, Prod.mk.injEq] at hok
  obtain ⟨-, hfin⟩ := hok
  subst hfin
  -- the six unconditional allocations
  have f1 : framesBelow h.length h (h ++ [.dict []]) :=
    alloc_framesBelow _ le_rfl
  have f2 : framesBelow h.length _ _ :=
    alloc_framesBelow (h := h ++ [.dict []])
      (.dict [("breaks_before", (alloc h (.dict [])).1)])
      (le_trans le_rfl f1.1)
  have f12 := framesBelow_trans f1 f2
  have f3 : framesBelow h.length _ _ :=
    alloc_framesBelow (h := (h ++ [.dict []]) ++
      [.dict [("breaks_before", (alloc h (.dict [])).1)]])
      (.str (fnS ++ " " ++ lnS)) (le_trans le_rfl f12.1)
  have f123 := framesBelow_trans f12 f3
  have f4 : framesBelow h.length _ _ :=
    alloc_framesBelow (h := ((h ++ [.dict []]) ++
      [.dict [("breaks_before", (alloc h (.dict [])).1)]]) ++
      [.str (fnS ++ " " ++ lnS)]) (.arr []) f123.1
  have f1234 := framesBelow_trans f123 f4
  have f5 : framesBelow h.length _ _ :=
    alloc_framesBelow (h := (((h ++ [.dict []]) ++
      [.dict [("breaks_before", (alloc h (.dict [])).1)]]) ++
      [.str (fnS ++ " " ++ lnS)]) ++ [.arr []])
      (.dict [("name",
          (alloc ((h ++ [.dict []]) ++
            [.dict [("breaks_before", (alloc h (.dict [])).1)]])
            (.str (fnS ++ " " ++ lnS))).1),
        ("email", emailR), ("phone", phoneR), ("url", urlR),
        ("profiles",
          (alloc (((h ++ [.dict []]) ++
            [.dict [("breaks_before", (alloc h (.dict [])).1)]]) ++
            [.str (fnS ++ " " ++ lnS)]) (.arr [])).1)])
      f1234.1
  have f12345 := framesBelow_trans f1234 f5
  have f6 : framesBelow h.length _ _ :=
    alloc_framesBelow (h := ((((h ++ [.dict []]) ++
      [.dict [("breaks_before", (alloc h (.dict [])).1)]]) ++
      [.str (fnS ++ " " ++ lnS)]) ++ [.arr []]) ++
      [.dict [("name",
          (alloc ((h ++ [.dict []]) ++
            [.dict [("breaks_before", (alloc h (.dict [])).1)]])
            (.str (fnS ++ " " ++ lnS))).1),
        ("email", emailR), ("phone", phoneR), ("url", urlR),
        ("profiles",
          (alloc (((h ++ [.dict []]) ++
            [.dict [("breaks_before", (alloc h (.dict [])).1)]]) ++
            [.str (fnS ++ " " ++ lnS)]) (.arr [])).1)]])
      (.dict [("meta",
          (alloc (h ++ [.dict []])
            (.dict [("breaks_before", (alloc h (.dict [])).1)])).1),
        ("basics",
          List.length (((((h ++ [.dict []]) ++
            [.dict [("breaks_before", (alloc h (.dict [])).1)]]) ++
            [.str (fnS ++ " " ++ lnS)]) ++ [.arr []])))]) f12345.1
  have fA := framesBelow_trans f12345 f6
  have floc : framesBelow h.length _ h7 :=
    locationBlockH_frames (by simp) (le_trans le_rfl fA.1) hloc
  have fB := framesBelow_trans fA floc
  have fgh : framesBelow h.length h7 h8 :=
    profileEntryBlockH_frames (by simp) (le_trans le_rfl fB.1) hgh
  have fC := framesBelow_trans fB fgh
  have fli : framesBelow h.length h8 h9 :=
    profileEntryBlockH_frames (by simp) (le_trans le_rfl fC.1) hli
  have fD := framesBelow_trans fC fli
  have fsk : framesBelow h.length h9 h10 :=
    skillsSectionH_frames (by simp) (by simp) (le_trans le_rfl fD.1) hsk
  have fE := framesBelow_trans fD fsk
  obtain ⟨fwk, hlastp⟩ :=
    workSectionH_frames (by simp) (by simp) (le_trans le_rfl fE.1) hwk
  have fF := framesBelow_trans fE fwk
  have fed : framesBelow h.length h11 h12 :=
    eduSectionH_frames (by simp) (by simp) hlastp
      (le_trans le_rfl fF.1) hed
  have fG := framesBelow_trans fF fed
  have fpj : framesBelow h.length h12 h13 :=
    projSectionH_frames (by simp) (by simp) (le_trans le_rfl fG.1) hpj
  have fH := framesBelow_trans fG fpj
  exact fun i hi => fH.2 i hi

/-- Witness for `transform_never_mutates_input`: on the concrete heap
holding `exampleMinimalConfig` the transformer succeeds, and the cell
holding the profile mapping (index 9) is unchanged in the final heap. -/
theorem transform_never_mutates_input_witness :
    from_resumy_to_jsonschema_heap exampleHeap exampleHeapRoot =
      .ok (exampleHeapResult.1, exampleHeapResult.2) ∧
    exampleHeapResult.2[9]? = exampleHeap[9]? :=
  ⟨rfl, @transform_never_mutates_input exampleHeap exampleHeapRoot
    exampleHeapResult.1 exampleHeapResult.2 rfl 9 (by decide)⟩

end Resumy
